import Mathlib

/-!
Verification development for the Workline LangChain example
(`src/examples/langchain_workline.py`).

The Python source is shallowly embedded: Python strings are Lean `String`s,
Python `None`/exception results become `Option`/`Except`, the external
Workline backend and the language-model agent are passed in as explicit
parameters, and every side effect that the claims observe (phase-runner
invocations, outcome-field writes) is returned as an explicit trace.

Character-level operations (`str.lower`, `str.strip`, `str.isdigit`,
`str.isalnum`, regex character classes) are modelled over the ASCII range;
the Python originals extend them to full Unicode, which none of the claims
exercise.
-/

/-! ## Python string primitives -/

/-- Model of Python `str.lower` on one character (ASCII range). -/
def pyLowerChar (c : Char) : Char :=
  if 65 ≤ c.toNat ∧ c.toNat ≤ 90 then Char.ofNat (c.toNat + 32) else c

/-- Model of Python `str.lower` on a character list. -/
def pyLowerL (cs : List Char) : List Char := cs.map pyLowerChar

/-- Model of Python `str.lower`. -/
def pyLower (s : String) : String := String.mk (pyLowerL s.data)

/-- Whitespace as stripped by Python `str.strip()` (ASCII part:
space, `\t`, `\n`, `\v`, `\f`, `\r`). -/
def pyWs (c : Char) : Bool :=
  c.toNat = 32 || c.toNat = 9 || c.toNat = 10 || c.toNat = 11 ||
    c.toNat = 12 || c.toNat = 13

/-- Model of Python `str.strip()` (drop whitespace from both ends). -/
def pyStripL (cs : List Char) : List Char :=
  ((cs.dropWhile pyWs).reverse.dropWhile pyWs).reverse

/-- Model of Python `str.strip()`. -/
def pyStrip (s : String) : String := String.mk (pyStripL s.data)

/-- `hasPrefixL p cs` holds when the character list `cs` starts with `p`
(model of Python `str.startswith`). -/
def hasPrefixL : List Char → List Char → Bool
  | [], _ => true
  | _ :: _, [] => false
  | p :: ps, c :: cs => p = c && hasPrefixL ps cs

/-- Model of Python `s.startswith(p)`. -/
def pyStartsWith (s p : String) : Bool := hasPrefixL p.data s.data

/-- `containsSeq needle hay`: does `needle` occur contiguously in `hay`?
Used to state "the context includes the output of a phase". -/
def containsSeq (needle : List Char) : List Char → Bool
  | [] => needle.isEmpty
  | c :: cs => hasPrefixL needle (c :: cs) || containsSeq needle cs

/-- String-level wrapper for `containsSeq`. -/
def strContains (hay needle : String) : Bool := containsSeq needle.data hay.data

/-- Model of Python `str.isdigit` for ASCII digit strings. -/
def isPyDigits (s : String) : Bool := !s.data.isEmpty && s.data.all Char.isDigit

/-- Decimal value of a list of ASCII digit characters. -/
def digitsValL (ds : List Char) : Nat := ds.foldl (fun acc c => 10 * acc + (c.toNat - 48)) 0

/-- Model of Python `int(...)` on a digit string. -/
def digitsVal (s : String) : Nat := digitsValL s.data

/-! ## Credential router (`_client_for_attestation`, lines 102-110)

The module binds `client = planner_client`, so the "default" identity is
the planner client; the router can only ever return one of the three
role-scoped clients. -/

/-- The three role-scoped identities of the example.  The module-level
default `client` is an alias of `planner_client`. -/
inductive Identity where
  | planner
  | executor
  | reviewer
deriving DecidableEq

/-- Embedding of `_client_for_attestation` (lines 102-110): normalize the
kind by `strip().lower()`, then route by first matching prefix. -/
def _client_for_attestation (kind : String) : Identity :=
  let normalized := pyLower (pyStrip kind)
  if pyStartsWith normalized ("review.") || pyStartsWith normalized ("acceptance.") ||
      pyStartsWith normalized ("security.") || normalized == ("iteration.approved") then
    Identity.reviewer
  else if pyStartsWith normalized ("ci.") then Identity.executor
  else if pyStartsWith normalized ("workshop.") then Identity.planner
  else Identity.planner

/-- A row of the spec's routing table: match a kind by a literal prefix or
by exact equality. -/
inductive KindPat where
  | pref (p : String)
  | exact (k : String)

/-- Does a routing-table row match the given kind string? -/
def patMatches (pat : KindPat) (k : String) : Bool :=
  match pat with
  | KindPat.pref p => pyStartsWith k p
  | KindPat.exact e => k == e

/-- The routing table exactly as the spec states it (section 4.1),
top-to-bottom. -/
def routingTable : List (KindPat × Identity) :=
  [ (KindPat.pref ("review."), Identity.reviewer),
    (KindPat.pref ("acceptance."), Identity.reviewer),
    (KindPat.pref ("security."), Identity.reviewer),
    (KindPat.exact ("iteration.approved"), Identity.reviewer),
    (KindPat.pref ("ci."), Identity.executor),
    (KindPat.pref ("workshop."), Identity.planner) ]

/-- First-match-wins evaluation of the spec's routing table; unmatched
kinds resolve to the default (planner) identity. -/
def tableRoute (k : String) : Identity :=
  match routingTable.find? (fun row => patMatches row.1 k) with
  | some row => row.2
  | none => Identity.planner

/-! ## Slug derivation (`_slugify`, lines 688-699) -/

/-- The accumulation loop of `_slugify`: keep alphanumerics, emit a single
dash per run of other characters (`last_dash` threading). -/
def slugChars : List Char → Bool → List Char
  | [], _ => []
  | c :: cs, lastDash =>
    if c.isAlphanum then c :: slugChars cs false
    else if lastDash then slugChars cs true
    else '-' :: slugChars cs true

/-- Model of Python `str.strip("-")`. -/
def stripDashes (cs : List Char) : List Char :=
  ((cs.dropWhile (fun c => c = '-')).reverse.dropWhile (fun c => c = '-')).reverse

/-- Embedding of `_slugify` (lines 688-699). -/
def _slugify (value : String) : String :=
  let slug := String.mk (stripDashes (slugChars (pyLowerL value.data) false))
  if slug = ("") then ("feature") else slug

/-- Spec-phrased slug map on one character: alphanumerics kept, everything
else becomes a hyphen. -/
def dashify (c : Char) : Char := if c.isAlphanum then c else '-'

/-- Collapse each maximal run of hyphens to a single hyphen. -/
def collapseDashes : List Char → List Char
  | [] => []
  | [c] => [c]
  | a :: b :: rest =>
    if a = '-' ∧ b = '-' then collapseDashes (b :: rest)
    else a :: collapseDashes (b :: rest)

/-- The slug derivation exactly as the claim phrases it: lower-case,
replace each maximal non-alphanumeric run by one hyphen, trim hyphens,
default to `feature`. -/
def slugifySpec (value : String) : String :=
  let collapsed := collapseDashes ((pyLowerL value.data).map dashify)
  let trimmed := String.mk (stripDashes collapsed)
  if trimmed = ("") then ("feature") else trimmed

/-! ## Iteration-id extraction (`_extract_iteration_id`, lines 649-653)

The source uses a *raw* Python string with doubled backslashes:
`r"iteration id\\s*[:\\-]\\s*([\\w-]+)"`.  In a raw string `\\` is two
characters, which the regex engine reads as an escaped literal backslash.
The pattern therefore requires a literal `\` character after
`iteration id`, allows runs of the letter `s` where whitespace was
intended, and captures only characters drawn from `\`, `w`, `W`, `-`
(`w`/`W` because `re.IGNORECASE` applies to character classes). -/

/-- Characters matched by `s*` under `re.IGNORECASE`. -/
def isSChar (c : Char) : Bool := c = 's' || c = 'S'

/-- The character class `[:\\-]` of the broken pattern. -/
def isSepBroken (c : Char) : Bool := c = ':' || c = '\\' || c = '-'

/-- The character class `[\\w-]` of the broken pattern (IGNORECASE makes
`w` match `W` too). -/
def isTokBroken (c : Char) : Bool := c = '\\' || c = 'w' || c = 'W' || c = '-'

/-- Case-insensitive literal match: `matchLitCI pat cs` consumes `pat`
(given lower-case) from the head of `cs`, comparing lowered characters. -/
def matchLitCI : List Char → List Char → Option (List Char)
  | [], cs => some cs
  | _ :: _, [] => none
  | p :: ps, c :: cs => if pyLowerChar c = p then matchLitCI ps cs else none

/-- Attempt the broken pattern at the head of the input, returning the
captured group. -/
def matchIterBrokenAt (cs : List Char) : Option (List Char) :=
  match matchLitCI ("iteration id").data cs with
  | none => none
  | some r1 =>
    match r1 with
    | '\\' :: r2 =>
      match r2.dropWhile isSChar with
      | [] => none
      | c :: r3 =>
        if isSepBroken c then
          match r3 with
          | '\\' :: r4 =>
            let r5 := r4.dropWhile isSChar
            let grp := r5.takeWhile isTokBroken
            if grp.isEmpty then none else some grp
          | _ => none
        else none
    | _ => none

/-- `re.search` semantics for the broken pattern: leftmost position where
the pattern matches. -/
def searchIterBroken : List Char → Option (List Char)
  | [] => none
  | c :: cs =>
    match matchIterBrokenAt (c :: cs) with
    | some g => some g
    | none => searchIterBroken cs

/-- Embedding of `_extract_iteration_id` (lines 649-653), with the regex
as actually written in the source. -/
def _extract_iteration_id (plan : String) : Option String :=
  match searchIterBroken plan.data with
  | none => none
  | some g => some (pyStrip (String.mk g))

/-- Regex `\s` character class (ASCII part). -/
def isRegexWs (c : Char) : Bool :=
  c = ' ' || c = '\t' || c = '\n' || c = '\r' || c = '\x0b' || c = '\x0c'

/-- The character class `[:\-]` of the intended pattern. -/
def isSepIntended (c : Char) : Bool := c = ':' || c = '-'

/-- The character class `[\w-]` of the intended pattern (ASCII part). -/
def isWordTok (c : Char) : Bool := c.isAlphanum || c = '_' || c = '-'

/-- Modelled from the spec: the intended pattern
`iteration id\s*[:\-]\s*([\w-]+)` (case-insensitive), i.e.
"iteration id: <token>"; the doubled-backslash raw string in the source
does not implement it.  Attempt at the head of the input. -/
def matchIterSpecAt (cs : List Char) : Option (List Char) :=
  match matchLitCI ("iteration id").data cs with
  | none => none
  | some r1 =>
    match r1.dropWhile isRegexWs with
    | [] => none
    | c :: r2 =>
      if isSepIntended c then
        let r3 := r2.dropWhile isRegexWs
        let grp := r3.takeWhile isWordTok
        if grp.isEmpty then none else some grp
      else none

/-- Modelled from the spec: leftmost search for the intended pattern. -/
def searchIterSpec : List Char → Option (List Char)
  | [] => none
  | c :: cs =>
    match matchIterSpecAt (c :: cs) with
    | some g => some g
    | none => searchIterSpec cs

/-- Modelled from the spec: `_extract_iteration_id` as specified
("iteration id: <token>", case-insensitive). -/
def extract_iteration_id_spec (plan : String) : Option String :=
  match searchIterSpec plan.data with
  | none => none
  | some g => some (pyStrip (String.mk g))

/-! ## Human interaction gate (`ask_human_question_local`, lines 351-381)

The interactive loop is modelled as a pure function of the list of lines
available on stdin.  `none` models the fatal end-of-input `RuntimeError`
(`readline` returning `""`, or `input()` hitting EOF).  `logged` is the
answer recorded by `log_conversation` just before returning, `answer` is
the value returned to the caller. -/

/-- Result of the question gate: what was logged and what was returned. -/
structure AskReturn where
  logged : String
  answer : String
deriving DecidableEq

/-- Embedding of `ask_human_question_local` (lines 351-381) in interactive
mode, as a function of the stdin line stream. -/
def ask_human_question_local (options : Option (List String)) :
    List String → Option AskReturn
  | [] => none
  | line :: rest =>
    let answer := pyStrip line
    if answer = ("") then ask_human_question_local options rest
    else
      match options with
      | some opts =>
        if isPyDigits answer then
          let choice := digitsVal answer
          if 1 ≤ choice ∧ choice ≤ opts.length then
            let selected := opts.getD (choice - 1) ("")
            if pyStartsWith (pyLower selected) ("other") then
              match rest with
              | [] => none
              | dline :: _ =>
                let detail := pyStrip dline
                if detail = ("") then some ⟨selected, selected⟩
                else some ⟨detail, detail⟩
            else some ⟨selected, selected⟩
          else some ⟨answer, answer⟩
        else some ⟨answer, answer⟩
      | none => some ⟨answer, answer⟩

/-! ## External state accessor (`_get_task` lines 238-244,
`ensure_workshop_task` lines 271-282)

The backing client `_request` either returns a response body or raises
`APIError(status_code, body)`; it is passed in as an `Except` value.  The
response body type is abstract.  `ensure_workshop_task` additionally
returns the list of create requests it issued, so "no write happened" is
an explicit part of the result. -/

/-- The `APIError` carried by the SDK client (status code and body). -/
structure APIErrorM where
  status : Nat
  body : String
deriving DecidableEq

/-- Embedding of `_get_task` (lines 238-244): a 404 from the backend maps
to `none`; any other error re-raises. -/
def _get_task {τ : Type} (resp : Except APIErrorM τ) : Except APIErrorM (Option τ) :=
  match resp with
  | Except.ok t => Except.ok (some t)
  | Except.error e => if e.status = 404 then Except.ok none else Except.error e

/-- The body of the create request issued by `ensure_workshop_task`. -/
structure TaskCreateBody where
  id : String
  title : String
  type : String
  description : String
  policyPreset : String
deriving DecidableEq

/-- Embedding of `ensure_workshop_task` (lines 271-282).  `getResp` is the
backend's answer to the GET, `createResp` its answer to a POST with the
given body.  The second component of the result lists the create requests
performed. -/
def ensure_workshop_task {τ : Type}
    (getResp : Except APIErrorM τ)
    (createResp : TaskCreateBody → Except APIErrorM τ)
    (task_id title preset description : String) :
    Except APIErrorM (τ × List TaskCreateBody) :=
  match _get_task getResp with
  | Except.error e => Except.error e
  | Except.ok (some t) => Except.ok (t, [])
  | Except.ok none =>
    let body : TaskCreateBody := ⟨task_id, title, ("workshop"), description, preset⟩
    match createResp body with
    | Except.ok t => Except.ok (t, [body])
    | Except.error e => Except.error e

/-! ## Structured output extractor (`_extract_json_payload`, lines 468-479)

JSON values are modelled as an inductive type; objects are ordered
key-value lists (Python dicts preserve insertion order and, coming from
`json.loads`, have the parsed keys; on duplicate keys Python keeps the
last value while this model keeps both pairs — no claim exercises
duplicate keys).  Numbers are modelled as integers: float literals
(fractions, exponents, `NaN`/`Infinity`) are outside the model, and the
model's parser fails where Python would produce a float.  String escape
handling follows Python's strict decoder except that lone-surrogate
`\uXXXX` escapes (which Lean `Char` cannot represent) are outside the
model.  Python's `json.loads("null")` returns `None`, which the source
cannot distinguish from extraction failure; the model keeps the two apart
as `some Json.null` versus `none`. -/

/-- The modelled domain of JSON values. -/
inductive Json where
  | null
  | bool (b : Bool)
  | num (n : Int)
  | str (s : String)
  | arr (elems : List Json)
  | obj (fields : List (String × Json))

/-- Lower-case hex digit characters, as emitted by `json.dumps` escapes. -/
def hexDigitChar : Nat → Char
  | 0 => '0' | 1 => '1' | 2 => '2' | 3 => '3' | 4 => '4'
  | 5 => '5' | 6 => '6' | 7 => '7' | 8 => '8' | 9 => '9'
  | 10 => 'a' | 11 => 'b' | 12 => 'c' | 13 => 'd' | 14 => 'e'
  | _ => 'f'

/-- Decimal digit characters of a natural number (model of Python
`str(n)` for `n ≥ 0`). -/
def natToChars (n : Nat) : List Char :=
  if n = 0 then ['0'] else ((Nat.digits 10 n).map hexDigitChar).reverse

/-- Decimal digit characters of an integer (model of Python `str(n)`). -/
def intToChars (n : Int) : List Char :=
  if n < 0 then '-' :: natToChars n.natAbs else natToChars n.natAbs

/-- `json.dumps` escaping of one string character (`ensure_ascii` is
irrelevant below `0x80`; characters `≥ 0x80` are emitted literally, a
serialization `json.loads` equally accepts). -/
def escapeChar (c : Char) : List Char :=
  if c = '"' then ['\\', '"']
  else if c = '\\' then ['\\', '\\']
  else if c = '\n' then ['\\', 'n']
  else if c = '\t' then ['\\', 't']
  else if c = '\r' then ['\\', 'r']
  else if c.toNat = 8 then ['\\', 'b']
  else if c.toNat = 12 then ['\\', 'f']
  else if c.toNat < 32 then
    ['\\', 'u', '0', '0', hexDigitChar (c.toNat / 16), hexDigitChar (c.toNat % 16)]
  else [c]

/-- `json.dumps` escaping of a character list. -/
def escapeChars : List Char → List Char
  | [] => []
  | c :: cs => escapeChar c ++ escapeChars cs

/-- A JSON string literal: quote, escaped content, quote. -/
def quoteChars (s : String) : List Char := '"' :: (escapeChars s.data ++ ['"'])

mutual

/-- Model of `json.dumps` with its default separators `", "` and `": "`,
producing a character list. -/
def dumpsL : Json → List Char
  | Json.null => ['n', 'u', 'l', 'l']
  | Json.bool true => ['t', 'r', 'u', 'e']
  | Json.bool false => ['f', 'a', 'l', 's', 'e']
  | Json.num n => intToChars n
  | Json.str s => quoteChars s
  | Json.arr xs => '[' :: (dumpsItems xs ++ [']'])
  | Json.obj kvs => '{' :: (dumpsFields kvs ++ ['}'])

/-- Array elements joined by `", "`. -/
def dumpsItems : List Json → List Char
  | [] => []
  | [x] => dumpsL x
  | x :: y :: rest => dumpsL x ++ (',' :: ' ' :: dumpsItems (y :: rest))

/-- Object entries `"key": value` joined by `", "`. -/
def dumpsFields : List (String × Json) → List Char
  | [] => []
  | [kv] => quoteChars kv.1 ++ (':' :: ' ' :: dumpsL kv.2)
  | kv :: kv2 :: rest =>
    quoteChars kv.1 ++ (':' :: ' ' :: dumpsL kv.2) ++ (',' :: ' ' :: dumpsFields (kv2 :: rest))

end

/-- Model of `json.dumps` as a string. -/
def dumps (v : Json) : String := String.mk (dumpsL v)

/-- JSON whitespace (the decoder's `[ \t\n\r]*`). -/
def isJsonWs (c : Char) : Bool := c = ' ' || c = '\t' || c = '\n' || c = '\r'

/-- Skip JSON whitespace. -/
def skipWs (cs : List Char) : List Char := cs.dropWhile isJsonWs

/-- Is `c` a hexadecimal digit character? -/
def isHexDigitChar (c : Char) : Bool :=
  c.isDigit || ('a' ≤ c && c ≤ 'f') || ('A' ≤ c && c ≤ 'F')

/-- Value of one hex digit character. -/
def hexVal (c : Char) : Nat :=
  if c.isDigit then c.toNat - 48
  else if 'a' ≤ c ∧ c ≤ 'f' then c.toNat - 87
  else if 'A' ≤ c ∧ c ≤ 'F' then c.toNat - 55
  else 0

/-- Prepend a decoded character to a string-parse result. -/
def consHead (c : Char) : Option (List Char × List Char) → Option (List Char × List Char)
  | none => none
  | some (content, rest) => some (c :: content, rest)

/-- Decode four hex digits of a `\\uXXXX` escape, returning the character
and the remaining input. -/
def hexQuad : List Char → Option (Char × List Char)
  | h1 :: h2 :: h3 :: h4 :: cs3 =>
    if isHexDigitChar h1 && isHexDigitChar h2 && isHexDigitChar h3 && isHexDigitChar h4 then
      some (Char.ofNat (hexVal h1 * 4096 + hexVal h2 * 256 + hexVal h3 * 16 + hexVal h4), cs3)
    else none
  | _ => none

/-- Strict JSON string-body parser (after the opening quote): returns the
decoded content and the input after the closing quote.  Control
characters must be escaped; unknown escapes fail.  One unit of fuel is
spent per source character, so any fuel above the input length is
enough. -/
def parseStrChars : Nat → List Char → Option (List Char × List Char)
  | 0, _ => none
  | _ + 1, [] => none
  | fuel + 1, c :: cs =>
    if c = '"' then some ([], cs)
    else if c = '\\' then
      match cs with
      | [] => none
      | e :: cs2 =>
        if e = '"' then consHead '"' (parseStrChars fuel cs2)
        else if e = '\\' then consHead '\\' (parseStrChars fuel cs2)
        else if e = '/' then consHead '/' (parseStrChars fuel cs2)
        else if e = 'b' then consHead (Char.ofNat 8) (parseStrChars fuel cs2)
        else if e = 'f' then consHead (Char.ofNat 12) (parseStrChars fuel cs2)
        else if e = 'n' then consHead '\n' (parseStrChars fuel cs2)
        else if e = 'r' then consHead '\r' (parseStrChars fuel cs2)
        else if e = 't' then consHead '\t' (parseStrChars fuel cs2)
        else if e = 'u' then
          match hexQuad cs2 with
          | some (d, cs3) => consHead d (parseStrChars fuel cs3)
          | none => none
        else none
    else if c.toNat < 32 then none
    else consHead c (parseStrChars fuel cs)

/-- Integer-literal scanner, mirroring the granularity of Python's
`NUMBER_RE` restricted to integers: a leading `0` is a complete literal
by itself. -/
def parseNumChars (cs : List Char) : Option (Nat × List Char) :=
  match cs with
  | [] => none
  | c :: rest =>
    if c = '0' then some (0, rest)
    else if ((c :: rest).takeWhile Char.isDigit).isEmpty then none
    else some (digitsValL ((c :: rest).takeWhile Char.isDigit),
               (c :: rest).dropWhile Char.isDigit)

mutual

/-- Fuelled JSON value parser (scanner granularity of `json.scanner`):
returns the value and the unconsumed input. -/
def parseValue : Nat → List Char → Option (Json × List Char)
  | 0, _ => none
  | _ + 1, [] => none
  | fuel + 1, c :: cs =>
    if c = 'n' then
      match cs with
      | 'u' :: 'l' :: 'l' :: rest => some (Json.null, rest)
      | _ => none
    else if c = 't' then
      match cs with
      | 'r' :: 'u' :: 'e' :: rest => some (Json.bool true, rest)
      | _ => none
    else if c = 'f' then
      match cs with
      | 'a' :: 'l' :: 's' :: 'e' :: rest => some (Json.bool false, rest)
      | _ => none
    else if c = '"' then
      match parseStrChars fuel cs with
      | some (content, rest) => some (Json.str (String.mk content), rest)
      | none => none
    else if c = '-' then
      match parseNumChars cs with
      | some (n, rest) => some (Json.num (-(n : Int)), rest)
      | none => none
    else if c.isDigit then
      match parseNumChars (c :: cs) with
      | some (n, rest) => some (Json.num (n : Int), rest)
      | none => none
    else if c = '[' then
      match skipWs cs with
      | [] => none
      | d :: cs1 =>
        if d = ']' then some (Json.arr [], cs1)
        else
          match parseItems fuel (d :: cs1) with
          | some (xs, rest) => some (Json.arr xs, rest)
          | none => none
    else if c = '{' then
      match skipWs cs with
      | [] => none
      | d :: cs1 =>
        if d = '}' then some (Json.obj [], cs1)
        else
          match parseFields fuel (d :: cs1) with
          | some (kvs, rest) => some (Json.obj kvs, rest)
          | none => none
    else none
  termination_by structural fuel => fuel

/-- One-or-more array elements, consuming the closing `]`. -/
def parseItems : Nat → List Char → Option (List Json × List Char)
  | 0, _ => none
  | fuel + 1, cs =>
    match parseValue fuel cs with
    | none => none
    | some (v, rest) =>
      match skipWs rest with
      | [] => none
      | d :: r2 =>
        if d = ',' then
          match parseItems fuel (skipWs r2) with
          | some (vs, rest2) => some (v :: vs, rest2)
          | none => none
        else if d = ']' then some ([v], r2)
        else none
  termination_by structural fuel => fuel

/-- One-or-more object entries, consuming the closing `}`. -/
def parseFields : Nat → List Char → Option (List (String × Json) × List Char)
  | 0, _ => none
  | fuel + 1, cs =>
    match cs with
    | '"' :: cs1 =>
      match parseStrChars fuel cs1 with
      | none => none
      | some (key, r1) =>
        match skipWs r1 with
        | [] => none
        | d2 :: r2 =>
          if d2 = ':' then
            match parseValue fuel (skipWs r2) with
            | none => none
            | some (v, r3) =>
              match skipWs r3 with
              | [] => none
              | d4 :: r4 =>
                if d4 = ',' then
                  match parseFields fuel (skipWs r4) with
                  | some (kvs, rest) => some ((String.mk key, v) :: kvs, rest)
                  | none => none
                else if d4 = '}' then some ([(String.mk key, v)], r4)
                else none
          else none
    | _ => none
  termination_by structural fuel => fuel

end

mutual

/-- Fuel sufficient for `parseValue` on this value's serialization. -/
def jsize : Json → Nat
  | Json.str s => 2 + s.data.length
  | Json.arr xs => 1 + jsizeList xs
  | Json.obj kvs => 1 + jsizeFields kvs
  | _ => 1

/-- Fuel sufficient for `parseItems` on these elements' serialization. -/
def jsizeList : List Json → Nat
  | [] => 1
  | x :: xs => 1 + jsize x + jsizeList xs

/-- Fuel sufficient for `parseFields` on these entries' serialization. -/
def jsizeFields : List (String × Json) → Nat
  | [] => 1
  | kv :: kvs => 2 + kv.1.data.length + jsize kv.2 + jsizeFields kvs

end

/-- Model of `json.loads`: skip surrounding whitespace, parse one value,
require the input to be exhausted. -/
def loads (s : String) : Option Json :=
  let cs := skipWs s.data
  match parseValue (2 * cs.length + 2) cs with
  | some (v, rest) => if (skipWs rest).isEmpty then some v else none
  | none => none

/-- Prefix of `cs` up to and including the last occurrence of `t`
(empty when `t` does not occur). -/
def takeToLast (t : Char) (cs : List Char) : List Char :=
  ((cs.reverse.dropWhile (fun c => c ≠ t))).reverse

/-- The fallback scan of `_extract_json_payload`: leftmost match of the
greedy DOTALL regex `(\{.*\}|\[.*\])` — from the first `{` (or `[`)
that has a later `}` (resp. `]`) to the last such closer in the text. -/
def findSpan : List Char → Option (List Char)
  | [] => none
  | c :: cs =>
    if c = '{' && cs.contains '}' then some (c :: takeToLast '}' cs)
    else if c = '[' && cs.contains ']' then some (c :: takeToLast ']' cs)
    else findSpan cs

/-- Embedding of `_extract_json_payload` (lines 468-479): full-text parse
first, then parse of the regex span, else absent. -/
def _extract_json_payload (text : String) : Option Json :=
  match loads text with
  | some v => some v
  | none =>
    match findSpan text.data with
    | none => none
    | some span => loads (String.mk span)

/-! ## Specifications post-processing (`run_specifications`, lines 663-685)

The agent call itself is the external language-model collaborator; the
modelled function is the treatment of its raw text `output`. -/

/-- Embedding of the result assembly of `run_specifications`
(lines 679-685): the returned `(prd, gherkin)` pair. -/
def run_specifications (output : String) : Json × Json :=
  match _extract_json_payload output with
  | some (Json.obj kvs) =>
    ((kvs.lookup ("prd")).getD (Json.str ("")),
     (kvs.lookup ("gherkin")).getD (Json.str ("")))
  | _ => (Json.str output, Json.str (""))

/-! ## Discovery orchestration (`continue_discovery`, lines 517-591)

The external store is projected onto the slice this function reads: the
`output` outcome fields of the four workshop work-items (an absent
work-item and an absent field both read as `none`, matching
`get_workshop_output` on a missing task).  The language-model runners are
opaque function parameters.  Every runner invocation and every outcome
write is recorded in an action trace; the `ensure_workshop_task` calls at
the top of the function (lines 523-546) are recorded too — they create
the work-items when absent and never touch the output fields read
below. -/

/-- A value stored in a work-item's `output` outcome field: a string, or
some other JSON value (rejected by the `isinstance(output, str)` check of
`get_workshop_output`). -/
inductive OutcomeVal where
  | strv (s : String)
  | nonstr
deriving DecidableEq

/-- The slice of external state read by `continue_discovery`. -/
structure ExtState where
  initialOut : Option OutcomeVal
  eventOut : Option OutcomeVal
  decisionOut : Option OutcomeVal
  clarifyOut : Option OutcomeVal
deriving DecidableEq

/-- Embedding of `get_workshop_output` (lines 299-307) applied to the
relevant task's field: the stored value when it is a string that is
non-empty after stripping, else `None`. -/
def get_workshop_output (field : Option OutcomeVal) : Option String :=
  match field with
  | some (OutcomeVal.strv s) => if pyStrip s = ("") then none else some s
  | _ => none

/-- The in-memory discovery map: the four fixed phase keys of the
`discovery` dict, each present or absent. -/
structure Discovery where
  initial : Option String
  event_storming : Option String
  decision_workshop : Option String
  clarify : Option String
deriving DecidableEq

/-- Embedding of `get_problem_refinement_discovery` (lines 339-348):
`None` when no phase has output, else the map restricted to phases with
(truthy) output. -/
def get_problem_refinement_discovery (st : ExtState) : Option Discovery :=
  if get_workshop_output st.initialOut = none ∧ get_workshop_output st.eventOut = none ∧
      get_workshop_output st.decisionOut = none ∧ get_workshop_output st.clarifyOut = none then
    none
  else
    some ⟨get_workshop_output st.initialOut, get_workshop_output st.eventOut,
          get_workshop_output st.decisionOut, get_workshop_output st.clarifyOut⟩

/-- The language-model runners, as opaque text-producing functions:
`run_discovery ps`, `run_discovery_phase name context`,
`run_workshop_next_steps name context`. -/
structure Agents where
  runDiscovery : String → String
  runDiscoveryPhase : String → String → String
  runNextSteps : String → String → String

/-- Observable effects of a `continue_discovery` run. -/
inductive RunAction where
  | ensureTask (id : String)
  | runDiscoveryCall (input : String)
  | phaseCall (name : String) (context : String)
  | nextStepsCall (name : String) (context : String)
  | putOutcome (taskId field value : String)
  | appendConv (taskId question answer : String)
deriving DecidableEq

/-- The three writes of `set_workshop_output` (lines 310-313): `output`,
`summary` (a duplicate by design), and a conversation entry. -/
def setOutputActions (taskId out : String) : List RunAction :=
  [RunAction.putOutcome taskId ("output") out,
   RunAction.putOutcome taskId ("summary") out,
   RunAction.appendConv taskId ("Workshop summary") out]

/-- The `initial` block of `continue_discovery` (lines 547-554): re-run
guard on the in-memory map, re-check of the external field, then the
`run_discovery` agent call and persistence. -/
def stepInitial (ag : Agents) (st : ExtState) (ps : String) (disc : Discovery) :
    Discovery × ExtState × List RunAction :=
  if disc.initial = none ∨ pyStrip (disc.initial.getD ("")) = ("") then
    match get_workshop_output st.initialOut with
    | some out => ({ disc with initial := some out }, st, [])
    | none =>
      let out := ag.runDiscovery ps
      ({ disc with initial := some out },
       { st with initialOut := some (OutcomeVal.strv out) },
       RunAction.runDiscoveryCall ps :: setOutputActions ("problem-refinement") out)
  else (disc, st, [])

/-- The context string built once at lines 555-560. -/
def mkContext (ps initialText : String) : String :=
  ("Problem Statement:\n") ++ ps ++ ("\n\nInitial Refinement:\n") ++ initialText

/-- One deferred-phase block of `continue_discovery` (lines 561-570,
571-580, 581-590): key-presence guard, external re-check, run, persist,
then the next-steps run and its write. -/
def stepPhase (ag : Agents) (st : ExtState) (phaseName taskId : String)
    (field : Option OutcomeVal) (write : ExtState → String → ExtState)
    (cur : Option String) (ctx : String) :
    Option String × ExtState × List RunAction :=
  match cur with
  | some v => (some v, st, [])
  | none =>
    match get_workshop_output field with
    | some out => (some out, st, [])
    | none =>
      let out := ag.runDiscoveryPhase phaseName ctx
      let ns := ag.runNextSteps phaseName ctx
      (some out, write st out,
       (RunAction.phaseCall phaseName ctx :: setOutputActions taskId out) ++
         [RunAction.nextStepsCall phaseName ctx,
          RunAction.putOutcome taskId ("next_steps") ns])

/-- Embedding of `continue_discovery` (lines 517-591). -/
def continue_discovery (ag : Agents) (st : ExtState) (ps : String)
    (existing : Option Discovery) : Discovery × ExtState × List RunAction :=
  let disc0 := existing.getD ⟨none, none, none, none⟩
  let ensures :=
    [RunAction.ensureTask ("problem-refinement"),
     RunAction.ensureTask ("workshop-eventstorming"),
     RunAction.ensureTask ("workshop-decision"),
     RunAction.ensureTask ("workshop-clarify")]
  let r1 := stepInitial ag st ps disc0
  let disc1 := r1.1
  let st1 := r1.2.1
  let context := mkContext ps (disc1.initial.getD (""))
  let r2 := stepPhase ag st1 ("Event Storming") ("workshop-eventstorming")
      st1.eventOut (fun s out => { s with eventOut := some (OutcomeVal.strv out) })
      disc1.event_storming context
  let st2 := r2.2.1
  let r3 := stepPhase ag st2 ("Decision Workshop") ("workshop-decision")
      st2.decisionOut (fun s out => { s with decisionOut := some (OutcomeVal.strv out) })
      disc1.decision_workshop context
  let st3 := r3.2.1
  let r4 := stepPhase ag st3 ("Clarification") ("workshop-clarify")
      st3.clarifyOut (fun s out => { s with clarifyOut := some (OutcomeVal.strv out) })
      disc1.clarify context
  (⟨disc1.initial, r2.1, r3.1, r4.1⟩, r4.2.1,
   ensures ++ (r1.2.2 ++ (r2.2.2 ++ (r3.2.2 ++ r4.2.2))))

/-- The discovery slice of `main` (lines 740-741): refresh the in-memory
map from the external store, then `continue_discovery` — the
"re-run the orchestrator" scenario of the claims. -/
def mainDiscoveryRun (ag : Agents) (st : ExtState) (ps : String) :
    Discovery × ExtState × List RunAction :=
  continue_discovery ag st ps (get_problem_refinement_discovery st)

/-- Is this action an invocation of the `initial` phase runner
(`run_discovery`)? -/
def isInitialRun : RunAction → Bool
  | RunAction.runDiscoveryCall _ => true
  | _ => false

/-- Is this action an invocation of the named deferred phase's runner
(`run_discovery_phase`) or of its `run_workshop_next_steps` call? -/
def isPhaseRun (name : String) : RunAction → Bool
  | RunAction.phaseCall n _ => n == name
  | RunAction.nextStepsCall n _ => n == name
  | _ => false

/-! # Theorems

General lemmas about the string primitives first, then the claim theorems
(named by claim id), each with its witness or counterexample. -/

theorem charOfNat_toNat {n : Nat} (h : n < 55296) : (Char.ofNat n).toNat = n := by
  unfold Char.ofNat
  split
  · rfl
  · next hh => exact absurd (Or.inl h) hh

theorem pyWs_pyLowerChar (c : Char) : pyWs (pyLowerChar c) = pyWs c := by
  unfold pyLowerChar
  split
  · next h =>
    have h1 : (Char.ofNat (c.toNat + 32)).toNat = c.toNat + 32 := charOfNat_toNat (by omega)
    simp only [pyWs, h1]
    rw [Bool.eq_iff_iff]
    simp only [Bool.or_eq_true, decide_eq_true_eq]
    omega
  · rfl

theorem pyLowerChar_idem (c : Char) : pyLowerChar (pyLowerChar c) = pyLowerChar c := by
  by_cases h : 65 ≤ c.toNat ∧ c.toNat ≤ 90
  · have h1 : (Char.ofNat (c.toNat + 32)).toNat = c.toNat + 32 := charOfNat_toNat (by omega)
    have h2 : pyLowerChar c = Char.ofNat (c.toNat + 32) := by
      unfold pyLowerChar
      rw [if_pos h]
    rw [h2]
    unfold pyLowerChar
    rw [if_neg]
    rw [h1]
    omega
  · have h2 : pyLowerChar c = c := by
      unfold pyLowerChar
      rw [if_neg h]
    rw [h2, h2]

theorem pyLowerL_idem (cs : List Char) : pyLowerL (pyLowerL cs) = pyLowerL cs := by
  unfold pyLowerL
  rw [List.map_map]
  exact congrFun (congrArg List.map (funext pyLowerChar_idem)) cs

theorem dropWhile_self {α : Type} (p : α → Bool) (l : List α) :
    (l.dropWhile p).dropWhile p = l.dropWhile p := by
  induction l with
  | nil => rfl
  | cons a t ih =>
    by_cases h : p a
    · simp [List.dropWhile_cons, h, ih]
    · simp [List.dropWhile_cons, h]

theorem head?_dropWhile_not {α : Type} (p : α → Bool) (l : List α) :
    ∀ c, (l.dropWhile p).head? = some c → p c = false := by
  induction l with
  | nil => intro c h; simp at h
  | cons a t ih =>
    intro c h
    by_cases hp : p a
    · rw [List.dropWhile_cons, if_pos hp] at h
      exact ih c h
    · rw [List.dropWhile_cons, if_neg hp] at h
      simp at h
      subst h
      exact Bool.eq_false_iff.mpr hp

theorem getLast?_dropWhile {α : Type} (p : α → Bool) (l : List α)
    (h : l.dropWhile p ≠ []) : (l.dropWhile p).getLast? = l.getLast? := by
  obtain ⟨t, ht⟩ := @List.dropWhile_suffix _ l p
  conv_rhs => rw [← ht]
  rw [List.getLast?_append_of_ne_nil _ h]

theorem dropWhile_eq_self_of_head? {α : Type} (p : α → Bool) (l : List α)
    (h : ∀ c, l.head? = some c → p c = false) : l.dropWhile p = l := by
  cases l with
  | nil => rfl
  | cons a t =>
    rw [List.dropWhile_cons, h a rfl]
    simp

theorem pyStripL_idem (cs : List Char) : pyStripL (pyStripL cs) = pyStripL cs := by
  unfold pyStripL
  by_cases hb : (cs.dropWhile pyWs).reverse.dropWhile pyWs = []
  · rw [hb]
    rfl
  · have hhead : ∀ c,
        (((cs.dropWhile pyWs).reverse.dropWhile pyWs).reverse).head? = some c → pyWs c = false := by
      intro c hc
      rw [List.head?_reverse, getLast?_dropWhile _ _ hb, List.getLast?_eq_head?_reverse,
        List.reverse_reverse] at hc
      exact head?_dropWhile_not pyWs cs c hc
    rw [dropWhile_eq_self_of_head? pyWs _ hhead, List.reverse_reverse, dropWhile_self]

theorem pyStripL_pyLowerL (cs : List Char) : pyStripL (pyLowerL cs) = pyLowerL (pyStripL cs) := by
  have hcomp : (pyWs ∘ pyLowerChar) = pyWs := funext fun c => pyWs_pyLowerChar c
  unfold pyStripL pyLowerL
  rw [List.dropWhile_map, hcomp, ← List.map_reverse, List.dropWhile_map, hcomp,
    ← List.map_reverse]

theorem pyNorm_idem (s : String) :
    pyLower (pyStrip (pyLower (pyStrip s))) = pyLower (pyStrip s) := by
  unfold pyLower pyStrip
  show String.mk (pyLowerL (pyStripL (pyLowerL (pyStripL s.data)))) =
    String.mk (pyLowerL (pyStripL s.data))
  rw [pyStripL_pyLowerL, pyStripL_idem, pyLowerL_idem]

theorem slugChars_eq_collapse (cs : List Char) :
    slugChars cs false = collapseDashes (cs.map dashify) ∧
    '-' :: slugChars cs true = collapseDashes ('-' :: cs.map dashify) := by
  induction cs with
  | nil => exact ⟨rfl, rfl⟩
  | cons c t ih =>
    by_cases h : c.isAlphanum
    · have hdc : dashify c = c := by simp [dashify, h]
      have hcne : c ≠ '-' := by
        intro hc
        rw [hc] at h
        exact absurd h (by decide)
      have hC : collapseDashes (c :: t.map dashify) = c :: slugChars t false := by
        rw [ih.1]
        cases t.map dashify with
        | nil => simp [collapseDashes]
        | cons b r => simp [collapseDashes, hcne]
      constructor
      · rw [List.map_cons, hdc, hC]
        simp [slugChars, h]
      · rw [List.map_cons, hdc]
        have hQ : collapseDashes ('-' :: c :: t.map dashify) =
            '-' :: collapseDashes (c :: t.map dashify) := by
          simp [collapseDashes, hcne]
        rw [hQ, hC]
        simp [slugChars, h]
    · have hdc : dashify c = '-' := by simp [dashify, h]
      constructor
      · rw [List.map_cons, hdc, ← ih.2]
        simp [slugChars, h]
      · rw [List.map_cons, hdc]
        have hQ2 : collapseDashes ('-' :: '-' :: t.map dashify) =
            collapseDashes ('-' :: t.map dashify) := by
          simp [collapseDashes]
        rw [hQ2, ← ih.2]
        simp [slugChars, h]

/-- C9: `_slugify` lower-cases its input, replaces each maximal run of
non-alphanumeric characters with a single hyphen, trims leading and
trailing hyphens, and returns the fixed placeholder `feature` when the
result would be empty; in particular `Real-Time Alerts!` yields
`real-time-alerts` and an all-punctuation title yields `feature`, never
the empty string. -/
theorem C9_slugify_spec :
    (∀ s : String, _slugify s = slugifySpec s ∧ _slugify s ≠ ("")) ∧
    _slugify ("Real-Time Alerts!") = ("real-time-alerts") ∧
    _slugify ("!!!") = ("feature") := by
  refine ⟨fun s => ⟨?_, ?_⟩, rfl, rfl⟩
  · simp only [_slugify, slugifySpec]
    rw [(slugChars_eq_collapse (pyLowerL s.data)).1]
  · simp only [_slugify]
    split
    · decide
    · next hq => exact hq

/-- C10: identity routing is insensitive to letter case and surrounding
whitespace — `_client_for_attestation` of any kind equals
`_client_for_attestation` of the stripped, lower-cased kind; e.g.
`" REVIEW.Approved "` routes to the reviewer. -/
theorem C10_normalization_invariance :
    (∀ k : String,
      _client_for_attestation k = _client_for_attestation (pyLower (pyStrip k))) ∧
    _client_for_attestation (" REVIEW.Approved ") = Identity.reviewer := by
  constructor
  · intro k
    simp only [_client_for_attestation, pyNorm_idem]
  · rfl

/-- C3 counterexample: the claim routes every kind not matching its raw
prefix table to the default (planner) identity, but the code normalizes
first: `"CI.passed"` matches no raw table row yet routes to the
executor. -/
theorem C3_counterexample :
    _client_for_attestation ("CI.passed") = Identity.executor ∧
    tableRoute ("CI.passed") = Identity.planner ∧
    Identity.executor ≠ Identity.planner :=
  ⟨rfl, rfl, by decide⟩

/-- C3 (amended): identity selection is a pure total function of the
action-kind string, equal to the spec's top-to-bottom first-match routing
table applied to the kind after stripping surrounding whitespace and
lower-casing; unmatched kinds resolve to the default (planner)
identity. -/
theorem C3_routing_amended (k : String) :
    _client_for_attestation k = tableRoute (pyLower (pyStrip k)) := by
  by_cases h1 : pyStartsWith (pyLower (pyStrip k)) ("review.") = true <;>
    by_cases h2 : pyStartsWith (pyLower (pyStrip k)) ("acceptance.") = true <;>
      by_cases h3 : pyStartsWith (pyLower (pyStrip k)) ("security.") = true <;>
        by_cases h4 : (pyLower (pyStrip k) == ("iteration.approved")) = true <;>
          by_cases h5 : pyStartsWith (pyLower (pyStrip k)) ("ci.") = true <;>
            by_cases h6 : pyStartsWith (pyLower (pyStrip k)) ("workshop.") = true <;>
              simp [_client_for_attestation, tableRoute, routingTable, patMatches,
                List.find?, h1, h2, h3, h4, h5, h6]

/-- C4: the spec requires `_extract_iteration_id` to extract the token of
`"Iteration ID: sprint-1"`, but the doubled backslashes of the raw-string
pattern make the compiled regex demand a literal backslash after
`iteration id`, so the code returns `None` on that input; the
spec-modelled pattern returns `"sprint-1"` as claimed. -/
theorem C4_broken_iteration_regex :
    _extract_iteration_id ("Iteration ID: sprint-1") = none ∧
    extract_iteration_id_spec ("Iteration ID: sprint-1") = some ("sprint-1") :=
  ⟨rfl, rfl⟩

/-- C5 counterexample: with options whose fourth entry is
`"Other (type your own)"`, input line `"4"` and an empty free-text
detail, the gate logs and returns the option text, not the numeric
answer `"4"` the claim promises. -/
theorem C5_counterexample :
    ask_human_question_local
        (some [("A"), ("B"), ("C"), ("Other (type your own)")]) [("4"), ("")] =
      some ⟨("Other (type your own)"), ("Other (type your own)")⟩ ∧
    ("Other (type your own)") ≠ ("4") :=
  ⟨rfl, by decide⟩

/-- C5 (amended): when the input is a number selecting a listed option
whose text case-insensitively starts with "other" and the subsequent
free-text detail prompt yields an empty string after trimming, the
selected option's text itself is logged as the conversation entry and
returned to the caller. -/
theorem C5_other_empty_detail (opts : List String) (l d : String) (rest : List String)
    (h1 : ¬ pyStrip l = (""))
    (h2 : isPyDigits (pyStrip l) = true)
    (h3 : 1 ≤ digitsVal (pyStrip l) ∧ digitsVal (pyStrip l) ≤ opts.length)
    (h4 : pyStartsWith (pyLower (opts.getD (digitsVal (pyStrip l) - 1) (""))) ("other") = true)
    (h5 : pyStrip d = ("")) :
    ask_human_question_local (some opts) (l :: d :: rest) =
      some ⟨opts.getD (digitsVal (pyStrip l) - 1) (""),
            opts.getD (digitsVal (pyStrip l) - 1) ("")⟩ := by
  simp only [ask_human_question_local]
  rw [if_neg h1, h2]
  simp only [if_true]
  rw [if_pos h3, h4]
  simp only [if_true, h5]

/-- Witness for C5 (amended) at the counterexample's concrete input. -/
theorem C5_other_empty_detail_witness :
    ask_human_question_local
        (some [("A"), ("B"), ("C"), ("Other (type your own)")]) [("4"), ("")] =
      some ⟨("Other (type your own)"), ("Other (type your own)")⟩ :=
  C5_other_empty_detail [("A"), ("B"), ("C"), ("Other (type your own)")]
    ("4") ("") [] (by decide) (by decide) (by decide) (by decide) (by decide)

/-- C7: a 404 on a single-item lookup maps to absent while any other
non-2xx propagates as the `APIError`; and `ensure_workshop_task` creates
the item with the given fields only when absent, returning a present item
as-is without any write. -/
theorem C7_get_and_ensure :
    (∀ (τ : Type) (t : τ), _get_task (Except.ok t) = Except.ok (some t)) ∧
    (∀ (τ : Type) (b : String),
      @_get_task τ (Except.error ⟨404, b⟩) = Except.ok none) ∧
    (∀ (τ : Type) (s : Nat) (b : String), s ≠ 404 →
      @_get_task τ (Except.error ⟨s, b⟩) = Except.error ⟨s, b⟩) ∧
    (∀ (τ : Type) (t : τ) (createResp : TaskCreateBody → Except APIErrorM τ)
        (i ti pr de : String),
      ensure_workshop_task (Except.ok t) createResp i ti pr de = Except.ok (t, [])) ∧
    (∀ (τ : Type) (createResp : TaskCreateBody → Except APIErrorM τ)
        (b : String) (i ti pr de : String) (ct : τ),
      createResp ⟨i, ti, ("workshop"), de, pr⟩ = Except.ok ct →
      ensure_workshop_task (Except.error ⟨404, b⟩) createResp i ti pr de =
        Except.ok (ct, [⟨i, ti, ("workshop"), de, pr⟩])) := by
  refine ⟨fun τ t => rfl, fun τ b => rfl, fun τ s b hs => ?_, fun τ t cr i ti pr de => rfl,
    fun τ cr b i ti pr de ct hcr => ?_⟩
  · simp only [_get_task]
    rw [if_neg hs]
  · have h404 : @_get_task τ (Except.error ⟨404, b⟩) = Except.ok none := rfl
    unfold ensure_workshop_task
    rw [h404]
    show (match cr (TaskCreateBody.mk i ti ("workshop") de pr) with
      | Except.ok t => Except.ok (t, [TaskCreateBody.mk i ti ("workshop") de pr])
      | Except.error e => Except.error e) =
      Except.ok (ct, [TaskCreateBody.mk i ti ("workshop") de pr])
    rw [hcr]

/-- Witness for C7 at concrete inputs, discharging the `s ≠ 404` and
create-response hypotheses. -/
theorem C7_get_and_ensure_witness :
    @_get_task Nat (Except.error ⟨500, ("boom")⟩) = Except.error ⟨500, ("boom")⟩ ∧
    ensure_workshop_task (Except.error ⟨404, ("not found")⟩) (fun _ => Except.ok 7)
        ("wid") ("Title") ("workshop.clarify") ("Desc") =
      Except.ok (7, [⟨("wid"), ("Title"), ("workshop"), ("Desc"), ("workshop.clarify")⟩]) :=
  ⟨C7_get_and_ensure.2.2.1 Nat 500 ("boom") (by decide),
   C7_get_and_ensure.2.2.2.2 Nat (fun _ => Except.ok 7) ("not found")
     ("wid") ("Title") ("workshop.clarify") ("Desc") 7 rfl⟩

/-- C8: `run_specifications` degrades structured-extraction failure to
using the whole output as `prd` with empty `gherkin`, degrades a missing
`prd`/`gherkin` key to the empty string, and never surfaces extraction
failure as an error. -/
theorem C8_specifications_degradation :
    (∀ out : String,
      (_extract_json_payload out = none ∨
        ∀ kvs, _extract_json_payload out ≠ some (Json.obj kvs)) →
      run_specifications out = (Json.str out, Json.str (""))) ∧
    (∀ (out : String) (kvs : List (String × Json)),
      _extract_json_payload out = some (Json.obj kvs) →
      kvs.lookup ("prd") = none →
      (run_specifications out).1 = Json.str ("")) ∧
    (∀ (out : String) (kvs : List (String × Json)),
      _extract_json_payload out = some (Json.obj kvs) →
      kvs.lookup ("gherkin") = none →
      (run_specifications out).2 = Json.str ("")) := by
  refine ⟨fun out h => ?_, fun out kvs hE hl => ?_, fun out kvs hE hl => ?_⟩
  · unfold run_specifications
    rcases hE : _extract_json_payload out with - | v
    · rfl
    · cases v with
      | obj kvs =>
        rcases h with h | h
        · rw [hE] at h
          cases h
        · exact absurd hE (h kvs)
      | null => rfl
      | bool b => rfl
      | num n => rfl
      | str s => rfl
      | arr xs => rfl
  · unfold run_specifications
    rw [hE]
    show ((kvs.lookup ("prd")).getD (Json.str ("")),
      (kvs.lookup ("gherkin")).getD (Json.str (""))).1 = Json.str ("")
    rw [hl]
    rfl
  · unfold run_specifications
    rw [hE]
    show ((kvs.lookup ("prd")).getD (Json.str ("")),
      (kvs.lookup ("gherkin")).getD (Json.str (""))).2 = Json.str ("")
    rw [hl]
    rfl

/-- Witness for C8 at concrete inputs: prose output falls back to
`(output, "")`, and an object missing both keys degrades them to empty
strings. -/
theorem C8_specifications_degradation_witness :
    run_specifications ("no json here") = (Json.str ("no json here"), Json.str ("")) ∧
    (run_specifications ("\x7b\"a\": 1\x7d")).1 = Json.str ("") ∧
    (run_specifications ("\x7b\"a\": 1\x7d")).2 = Json.str ("") :=
  ⟨C8_specifications_degradation.1 ("no json here") (Or.inl rfl),
   C8_specifications_degradation.2.1 ("\x7b\"a\": 1\x7d") [(("a"), Json.num 1)] rfl rfl,
   C8_specifications_degradation.2.2 ("\x7b\"a\": 1\x7d") [(("a"), Json.num 1)] rfl rfl⟩

theorem stepPhase_of_cur (ag : Agents) (st : ExtState) (n tid : String)
    (f : Option OutcomeVal) (w : ExtState → String → ExtState) (v : String) (ctx : String) :
    stepPhase ag st n tid f w (some v) ctx = (some v, st, []) := rfl

theorem stepInitial_event (ag : Agents) (st : ExtState) (ps : String) (d : Discovery) :
    (stepInitial ag st ps d).1.event_storming = d.event_storming := by
  unfold stepInitial
  split
  · cases hg : get_workshop_output st.initialOut <;> simp [hg]
  · rfl

theorem stepInitial_decision (ag : Agents) (st : ExtState) (ps : String) (d : Discovery) :
    (stepInitial ag st ps d).1.decision_workshop = d.decision_workshop := by
  unfold stepInitial
  split
  · cases hg : get_workshop_output st.initialOut <;> simp [hg]
  · rfl

theorem stepInitial_clarify (ag : Agents) (st : ExtState) (ps : String) (d : Discovery) :
    (stepInitial ag st ps d).1.clarify = d.clarify := by
  unfold stepInitial
  split
  · cases hg : get_workshop_output st.initialOut <;> simp [hg]
  · rfl

theorem stepInitial_of_prepop (ag : Agents) (st : ExtState) (ps : String) (d : Discovery)
    (s : String) (hd : d.initial = some s) (hs : ¬ pyStrip s = ("")) :
    stepInitial ag st ps d = (d, st, []) := by
  unfold stepInitial
  rw [if_neg]
  rintro (h | h)
  · rw [hd] at h
    cases h
  · rw [hd] at h
    exact hs h

theorem stepInitial_no_phase (ag : Agents) (st : ExtState) (ps : String) (d : Discovery)
    (m : String) : ∀ a ∈ (stepInitial ag st ps d).2.2, isPhaseRun m a = false := by
  unfold stepInitial
  split
  · cases hg : get_workshop_output st.initialOut with
    | some out => simp
    | none =>
      intro a ha
      simp only [setOutputActions, List.mem_cons, List.not_mem_nil, or_false] at ha
      rcases ha with h | h | h | h <;> subst h <;> rfl
  · simp

theorem stepPhase_no_initial (ag : Agents) (st : ExtState) (n tid : String)
    (f : Option OutcomeVal) (w : ExtState → String → ExtState) (cur : Option String)
    (ctx : String) :
    ∀ a ∈ (stepPhase ag st n tid f w cur ctx).2.2, isInitialRun a = false := by
  unfold stepPhase
  cases cur with
  | some v => simp
  | none =>
    cases hg : get_workshop_output f with
    | some out => simp
    | none =>
      intro a ha
      simp only [setOutputActions, List.cons_append, List.nil_append, List.mem_cons,
        List.not_mem_nil, or_false] at ha
      rcases ha with h | h | h | h | h | h <;> subst h <;> rfl

theorem stepPhase_no_other (ag : Agents) (st : ExtState) (n tid : String)
    (f : Option OutcomeVal) (w : ExtState → String → ExtState) (cur : Option String)
    (ctx : String) (m : String) (hne : n ≠ m) :
    ∀ a ∈ (stepPhase ag st n tid f w cur ctx).2.2, isPhaseRun m a = false := by
  unfold stepPhase
  cases cur with
  | some v => simp
  | none =>
    cases hg : get_workshop_output f with
    | some out => simp
    | none =>
      intro a ha
      simp only [setOutputActions, List.cons_append, List.nil_append, List.mem_cons,
        List.not_mem_nil, or_false] at ha
      rcases ha with h | h | h | h | h | h <;> subst h <;>
        simp [isPhaseRun, hne]

theorem stepPhase_phaseCall_ctx (ag : Agents) (st : ExtState) (n tid : String)
    (f : Option OutcomeVal) (w : ExtState → String → ExtState) (cur : Option String)
    (ctx : String) (m cx : String) :
    (RunAction.phaseCall m cx ∈ (stepPhase ag st n tid f w cur ctx).2.2 ∨
      RunAction.nextStepsCall m cx ∈ (stepPhase ag st n tid f w cur ctx).2.2) →
    cx = ctx := by
  unfold stepPhase
  cases cur with
  | some v => simp
  | none =>
    cases hg : get_workshop_output f with
    | some out => simp
    | none =>
      intro ha
      rcases ha with ha | ha <;>
      · simp only [setOutputActions, List.cons_append, List.nil_append, List.mem_cons,
          List.not_mem_nil, or_false] at ha
        rcases ha with h | h | h | h | h | h <;> cases h <;> rfl

theorem mem_append4 {α : Type} {a : α} {l1 l2 l3 l4 : List α}
    (h : a ∈ l1 ++ (l2 ++ (l3 ++ l4))) : a ∈ l1 ∨ a ∈ l2 ∨ a ∈ l3 ∨ a ∈ l4 := by
  simp only [List.mem_append] at h
  tauto

theorem ensures_no_phase (m : String) :
    ∀ a ∈ [RunAction.ensureTask ("problem-refinement"),
           RunAction.ensureTask ("workshop-eventstorming"),
           RunAction.ensureTask ("workshop-decision"),
           RunAction.ensureTask ("workshop-clarify")], isPhaseRun m a = false := by
  intro a ha
  simp only [List.mem_cons, List.not_mem_nil, or_false] at ha
  rcases ha with h | h | h | h <;> subst h <;> rfl

theorem ensures_no_initial :
    ∀ a ∈ [RunAction.ensureTask ("problem-refinement"),
           RunAction.ensureTask ("workshop-eventstorming"),
           RunAction.ensureTask ("workshop-decision"),
           RunAction.ensureTask ("workshop-clarify")], isInitialRun a = false := by
  intro a ha
  simp only [List.mem_cons, List.not_mem_nil, or_false] at ha
  rcases ha with h | h | h | h <;> subst h <;> rfl

/-- C1: for every discovery phase, if the external work-item's `output`
outcome already holds a string that is non-empty after trimming, then the
orchestrator re-run (`get_problem_refinement_discovery` followed by
`continue_discovery`, as `main` performs it) does not invoke that phase's
runner and the returned discovery map contains the pre-populated text
unchanged. -/
theorem C1_phase_skip (ag : Agents) (st : ExtState) (ps : String) :
    (∀ s, st.initialOut = some (OutcomeVal.strv s) → ¬ pyStrip s = ("") →
      (mainDiscoveryRun ag st ps).1.initial = some s ∧
      ∀ a ∈ (mainDiscoveryRun ag st ps).2.2, isInitialRun a = false) ∧
    (∀ s, st.eventOut = some (OutcomeVal.strv s) → ¬ pyStrip s = ("") →
      (mainDiscoveryRun ag st ps).1.event_storming = some s ∧
      ∀ a ∈ (mainDiscoveryRun ag st ps).2.2, isPhaseRun ("Event Storming") a = false) ∧
    (∀ s, st.decisionOut = some (OutcomeVal.strv s) → ¬ pyStrip s = ("") →
      (mainDiscoveryRun ag st ps).1.decision_workshop = some s ∧
      ∀ a ∈ (mainDiscoveryRun ag st ps).2.2, isPhaseRun ("Decision Workshop") a = false) ∧
    (∀ s, st.clarifyOut = some (OutcomeVal.strv s) → ¬ pyStrip s = ("") →
      (mainDiscoveryRun ag st ps).1.clarify = some s ∧
      ∀ a ∈ (mainDiscoveryRun ag st ps).2.2, isPhaseRun ("Clarification") a = false) := by
  refine ⟨?_, ?_, ?_, ?_⟩
  · intro s hf hs
    have hgw : get_workshop_output st.initialOut = some s := by
      rw [hf]
      simp [get_workshop_output, hs]
    have hex : get_problem_refinement_discovery st = some
        ⟨some s, get_workshop_output st.eventOut,
         get_workshop_output st.decisionOut, get_workshop_output st.clarifyOut⟩ := by
      unfold get_problem_refinement_discovery
      rw [hgw]
      rw [if_neg (fun hand => Option.noConfusion hand.1)]
    simp only [mainDiscoveryRun, continue_discovery, hex, Option.getD_some]
    rw [stepInitial_of_prepop ag st ps _ s rfl hs]
    constructor
    · rfl
    · intro a ha
      rcases mem_append4 ha with h | h | h | h
      · exact ensures_no_initial a h
      · cases h
      · exact stepPhase_no_initial ag _ _ _ _ _ _ _ a h
      · rcases List.mem_append.mp h with h | h
        · exact stepPhase_no_initial ag _ _ _ _ _ _ _ a h
        · exact stepPhase_no_initial ag _ _ _ _ _ _ _ a h
  · intro s hf hs
    have hgw : get_workshop_output st.eventOut = some s := by
      rw [hf]
      simp [get_workshop_output, hs]
    have hex : get_problem_refinement_discovery st = some
        ⟨get_workshop_output st.initialOut, some s,
         get_workshop_output st.decisionOut, get_workshop_output st.clarifyOut⟩ := by
      unfold get_problem_refinement_discovery
      rw [hgw]
      rw [if_neg (fun hand => Option.noConfusion hand.2.1)]
    simp only [mainDiscoveryRun, continue_discovery, hex, Option.getD_some]
    rw [stepInitial_event]
    rw [stepPhase_of_cur]
    constructor
    · rfl
    · intro a ha
      simp only [List.nil_append] at ha
      rcases mem_append4 ha with h | h | h | h
      · exact ensures_no_phase _ a h
      · exact stepInitial_no_phase ag st ps _ _ a h
      · exact stepPhase_no_other ag _ _ _ _ _ _ _ _ (by decide) a h
      · exact stepPhase_no_other ag _ _ _ _ _ _ _ _ (by decide) a h
  · intro s hf hs
    have hgw : get_workshop_output st.decisionOut = some s := by
      rw [hf]
      simp [get_workshop_output, hs]
    have hex : get_problem_refinement_discovery st = some
        ⟨get_workshop_output st.initialOut, get_workshop_output st.eventOut,
         some s, get_workshop_output st.clarifyOut⟩ := by
      unfold get_problem_refinement_discovery
      rw [hgw]
      rw [if_neg (fun hand => Option.noConfusion hand.2.2.1)]
    simp only [mainDiscoveryRun, continue_discovery, hex, Option.getD_some]
    rw [stepInitial_decision]
    rw [stepPhase_of_cur]
    constructor
    · rfl
    · intro a ha
      simp only [List.nil_append] at ha
      rcases mem_append4 ha with h | h | h | h
      · exact ensures_no_phase _ a h
      · exact stepInitial_no_phase ag st ps _ _ a h
      · exact stepPhase_no_other ag _ _ _ _ _ _ _ _ (by decide) a h
      · exact stepPhase_no_other ag _ _ _ _ _ _ _ _ (by decide) a h
  · intro s hf hs
    have hgw : get_workshop_output st.clarifyOut = some s := by
      rw [hf]
      simp [get_workshop_output, hs]
    have hex : get_problem_refinement_discovery st = some
        ⟨get_workshop_output st.initialOut, get_workshop_output st.eventOut,
         get_workshop_output st.decisionOut, some s⟩ := by
      unfold get_problem_refinement_discovery
      rw [hgw]
      rw [if_neg (fun hand => Option.noConfusion hand.2.2.2)]
    simp only [mainDiscoveryRun, continue_discovery, hex, Option.getD_some]
    rw [stepInitial_clarify]
    rw [stepPhase_of_cur]
    constructor
    · rfl
    · intro a ha
      simp only [List.append_nil] at ha
      rcases mem_append4 ha with h | h | h | h
      · exact ensures_no_phase _ a h
      · exact stepInitial_no_phase ag st ps _ _ a h
      · exact stepPhase_no_other ag _ _ _ _ _ _ _ _ (by decide) a h
      · exact stepPhase_no_other ag _ _ _ _ _ _ _ _ (by decide) a h

/-- Witness for C1 at a fully pre-populated external state: all four
phase outputs come back unchanged. -/
theorem C1_phase_skip_witness :
    (mainDiscoveryRun (⟨fun _ => (""), fun _ _ => (""), fun _ _ => ("")⟩ : Agents)
        ⟨some (OutcomeVal.strv ("I")), some (OutcomeVal.strv ("E")),
         some (OutcomeVal.strv ("D")), some (OutcomeVal.strv ("C"))⟩ ("P")).1.initial =
      some ("I") ∧
    (mainDiscoveryRun (⟨fun _ => (""), fun _ _ => (""), fun _ _ => ("")⟩ : Agents)
        ⟨some (OutcomeVal.strv ("I")), some (OutcomeVal.strv ("E")),
         some (OutcomeVal.strv ("D")), some (OutcomeVal.strv ("C"))⟩ ("P")).1.event_storming =
      some ("E") ∧
    (mainDiscoveryRun (⟨fun _ => (""), fun _ _ => (""), fun _ _ => ("")⟩ : Agents)
        ⟨some (OutcomeVal.strv ("I")), some (OutcomeVal.strv ("E")),
         some (OutcomeVal.strv ("D")), some (OutcomeVal.strv ("C"))⟩ ("P")).1.decision_workshop =
      some ("D") ∧
    (mainDiscoveryRun (⟨fun _ => (""), fun _ _ => (""), fun _ _ => ("")⟩ : Agents)
        ⟨some (OutcomeVal.strv ("I")), some (OutcomeVal.strv ("E")),
         some (OutcomeVal.strv ("D")), some (OutcomeVal.strv ("C"))⟩ ("P")).1.clarify =
      some ("C") :=
  ⟨((C1_phase_skip _ _ _).1 ("I") rfl (by decide)).1,
   ((C1_phase_skip _ _ _).2.1 ("E") rfl (by decide)).1,
   ((C1_phase_skip _ _ _).2.2.1 ("D") rfl (by decide)).1,
   ((C1_phase_skip _ _ _).2.2.2 ("C") rfl (by decide)).1⟩

/-- C2 counterexample: starting from an empty external state, the event
storming phase produces `EVMARK`, yet the context recorded for the
Decision Workshop invocation is exactly problem statement plus initial
refinement and does not contain `EVMARK` — contradicting the claim that
the decision_workshop context includes the event_storming output. -/
theorem C2_counterexample :
    (mainDiscoveryRun
        (⟨fun _ => ("INIT0"),
          fun n _ => if n = ("Event Storming") then ("EVMARK") else ("OTHER"),
          fun _ _ => ("NEXT")⟩ : Agents)
        ⟨none, none, none, none⟩ ("P")).1.event_storming = some ("EVMARK") ∧
    RunAction.phaseCall ("Decision Workshop")
        ("Problem Statement:\nP\n\nInitial Refinement:\nINIT0") ∈
      (mainDiscoveryRun
        (⟨fun _ => ("INIT0"),
          fun n _ => if n = ("Event Storming") then ("EVMARK") else ("OTHER"),
          fun _ _ => ("NEXT")⟩ : Agents)
        ⟨none, none, none, none⟩ ("P")).2.2 ∧
    strContains ("Problem Statement:\nP\n\nInitial Refinement:\nINIT0") ("EVMARK") = false :=
  ⟨rfl, by decide, rfl⟩

/-- C2 (amended): the context passed to every deferred phase runner (and
to its next-steps runner) is the same single string, built once: the
problem statement concatenated with the initial phase's output only —
later phases do not receive the outputs of earlier deferred phases. -/
theorem C2_context_amended (ag : Agents) (st : ExtState) (ps : String)
    (ex : Option Discovery) (m cx : String)
    (h : RunAction.phaseCall m cx ∈ (continue_discovery ag st ps ex).2.2 ∨
         RunAction.nextStepsCall m cx ∈ (continue_discovery ag st ps ex).2.2) :
    cx = mkContext ps (((continue_discovery ag st ps ex).1.initial).getD ("")) := by
  simp only [continue_discovery] at h ⊢
  rcases h with h | h
  · rcases mem_append4 h with h | h | h | h
    · simp at h
    · have hno := stepInitial_no_phase ag st ps _ m _ h
      simp [isPhaseRun] at hno
    · exact stepPhase_phaseCall_ctx ag _ _ _ _ _ _ _ _ _ (Or.inl h)
    · rcases List.mem_append.mp h with h | h
      · exact stepPhase_phaseCall_ctx ag _ _ _ _ _ _ _ _ _ (Or.inl h)
      · exact stepPhase_phaseCall_ctx ag _ _ _ _ _ _ _ _ _ (Or.inl h)
  · rcases mem_append4 h with h | h | h | h
    · simp at h
    · have hno := stepInitial_no_phase ag st ps _ m _ h
      simp [isPhaseRun] at hno
    · exact stepPhase_phaseCall_ctx ag _ _ _ _ _ _ _ _ _ (Or.inr h)
    · rcases List.mem_append.mp h with h | h
      · exact stepPhase_phaseCall_ctx ag _ _ _ _ _ _ _ _ _ (Or.inr h)
      · exact stepPhase_phaseCall_ctx ag _ _ _ _ _ _ _ _ _ (Or.inr h)

/-- Witness for C2 (amended) at the counterexample's concrete run. -/
theorem C2_context_amended_witness :
    ("Problem Statement:\nP\n\nInitial Refinement:\nINIT0") =
      mkContext ("P")
        (((continue_discovery
            (⟨fun _ => ("INIT0"),
              fun n _ => if n = ("Event Storming") then ("EVMARK") else ("OTHER"),
              fun _ _ => ("NEXT")⟩ : Agents)
            ⟨none, none, none, none⟩ ("P") none).1.initial).getD ("")) :=
  C2_context_amended _ _ _ none ("Decision Workshop")
    ("Problem Statement:\nP\n\nInitial Refinement:\nINIT0") (Or.inl (by decide))

theorem hexDigitChar_isDigit {d : Nat} (h : d < 10) : (hexDigitChar d).isDigit = true := by
  interval_cases d <;> rfl

theorem hexDigitChar_sub48 {d : Nat} (h : d < 10) : (hexDigitChar d).toNat - 48 = d := by
  interval_cases d <;> rfl

theorem hexDigitChar_isHex {d : Nat} (h : d < 16) : isHexDigitChar (hexDigitChar d) = true := by
  interval_cases d <;> rfl

theorem hexVal_hexDigitChar {d : Nat} (h : d < 16) : hexVal (hexDigitChar d) = d := by
  interval_cases d <;> rfl

theorem natToChars_ne_nil (m : Nat) : natToChars m ≠ [] := by
  unfold natToChars
  split
  · decide
  · next h =>
    simp only [ne_eq, List.reverse_eq_nil_iff, List.map_eq_nil_iff]
    exact Nat.digits_ne_nil_iff_ne_zero.mpr h

theorem natToChars_all_digits (m : Nat) : ∀ c ∈ natToChars m, c.isDigit = true := by
  intro c hc
  unfold natToChars at hc
  split at hc
  · simp at hc
    subst hc
    rfl
  · simp only [List.mem_reverse, List.mem_map] at hc
    obtain ⟨d, hd, hrfl⟩ := hc
    subst hrfl
    exact hexDigitChar_isDigit (Nat.digits_lt_base (by norm_num) hd)

theorem natToChars_head (m : Nat) (hm : m ≠ 0) :
    ∀ c, (natToChars m).head? = some c → c ≠ '0' ∧ c.isDigit = true := by
  intro c hc
  unfold natToChars at hc
  rw [if_neg hm, List.head?_reverse] at hc
  have hnil : Nat.digits 10 m ≠ [] := Nat.digits_ne_nil_iff_ne_zero.mpr hm
  rw [List.getLast?_map] at hc
  rw [List.getLast?_eq_getLast _ hnil] at hc
  simp at hc
  subst hc
  have hlt : (Nat.digits 10 m).getLast hnil < 10 :=
    Nat.digits_lt_base (by norm_num) (List.getLast_mem hnil)
  have hne : (Nat.digits 10 m).getLast hnil ≠ 0 := Nat.getLast_digit_ne_zero 10 hm
  constructor
  · intro hz
    have h1 := hexDigitChar_sub48 hlt
    rw [hz] at h1
    have h2 : ('0' : Char).toNat = 48 := rfl
    rw [h2] at h1
    exact hne (by omega)
  · exact hexDigitChar_isDigit hlt

theorem foldr_hexDigit_ofDigits (l : List Nat) (h : ∀ d ∈ l, d < 10) :
    l.foldr (fun d acc => 10 * acc + ((hexDigitChar d).toNat - 48)) 0 = Nat.ofDigits 10 l := by
  induction l with
  | nil => rfl
  | cons d l' ih =>
    simp only [List.foldr_cons, Nat.ofDigits_cons]
    rw [ih (fun x hx => h x (List.mem_cons_of_mem _ hx)),
      hexDigitChar_sub48 (h d (List.mem_cons_self _ _))]
    ring

theorem digitsValL_natToChars (m : Nat) : digitsValL (natToChars m) = m := by
  unfold natToChars
  split
  · next h => subst h; rfl
  · unfold digitsValL
    rw [List.foldl_reverse, List.foldr_map]
    have := foldr_hexDigit_ofDigits (Nat.digits 10 m)
      (fun d hd => Nat.digits_lt_base (by norm_num) hd)
    rw [show (fun (x : Nat) (y : Nat) => 10 * y + ((hexDigitChar x).toNat - 48)) =
      (fun d acc => 10 * acc + ((hexDigitChar d).toNat - 48)) from rfl, this]
    exact Nat.ofDigits_digits 10 m

theorem takeWhile_all_append {α : Type} (p : α → Bool) (l r : List α)
    (hl : ∀ c ∈ l, p c = true) (hr : ∀ c, r.head? = some c → p c = false) :
    (l ++ r).takeWhile p = l ∧ (l ++ r).dropWhile p = r := by
  induction l with
  | nil =>
    simp only [List.nil_append]
    constructor
    · cases r with
      | nil => rfl
      | cons a t =>
        simp [List.takeWhile_cons, hr a rfl]
    · exact dropWhile_eq_self_of_head? p r hr
  | cons a l' ih =>
    have hpa := hl a (List.mem_cons_self _ _)
    obtain ⟨ih1, ih2⟩ := ih (fun c hc => hl c (List.mem_cons_of_mem _ hc))
    constructor
    · simp [List.takeWhile_cons, hpa, ih1]
    · simp [List.dropWhile_cons, hpa, ih2]

theorem digit_head_facts (a : Char) (h : a.isDigit = true) :
    isJsonWs a = false ∧ a ≠ ']' := by
  constructor
  · cases hw : isJsonWs a
    · rfl
    · exfalso
      simp only [isJsonWs, Bool.or_eq_true, decide_eq_true_eq] at hw
      rcases hw with ((h1 | h1) | h1) | h1 <;> subst h1 <;> exact absurd h (by decide)
  · intro heq
    subst heq
    exact absurd h (by decide)

theorem parseNumChars_natToChars (m : Nat) (rest : List Char)
    (hr : ∀ c, rest.head? = some c → c.isDigit = false) :
    parseNumChars (natToChars m ++ rest) = some (m, rest) := by
  by_cases hm : m = 0
  · subst hm
    rfl
  · cases hh : natToChars m with
    | nil => exact absurd hh (natToChars_ne_nil m)
    | cons a t =>
      have hhead := natToChars_head m hm a (by rw [hh]; rfl)
      have hall : ∀ c ∈ a :: t, c.isDigit = true := by
        rw [← hh]
        exact natToChars_all_digits m
      rw [List.cons_append]
      simp only [parseNumChars]
      rw [if_neg hhead.1, ← List.cons_append]
      obtain ⟨htake, hdrop⟩ := takeWhile_all_append Char.isDigit (a :: t) rest hall hr
      rw [htake, hdrop]
      rw [show (a :: t).isEmpty = false from rfl]
      rw [if_neg (by simp)]
      rw [← hh, digitsValL_natToChars]

theorem parseStrChars_escapeChar (c : Char) (rest : List Char) (f : Nat) :
    parseStrChars (f + 1) (escapeChar c ++ rest) = consHead c (parseStrChars f rest) := by
  by_cases h1 : c = '"'
  · subst h1
    rfl
  by_cases h2 : c = '\\'
  · subst h2
    rfl
  by_cases h3 : c = '\n'
  · subst h3
    rfl
  by_cases h4 : c = '\t'
  · subst h4
    rfl
  by_cases h5 : c = '\r'
  · subst h5
    rfl
  by_cases h6 : c.toNat = 8
  · have he : escapeChar c = ['\\', 'b'] := by
      unfold escapeChar
      rw [if_neg h1, if_neg h2, if_neg h3, if_neg h4, if_neg h5, if_pos h6]
    rw [he]
    show consHead (Char.ofNat 8) (parseStrChars f rest) = consHead c (parseStrChars f rest)
    rw [← h6, Char.ofNat_toNat]
  by_cases h7 : c.toNat = 12
  · have he : escapeChar c = ['\\', 'f'] := by
      unfold escapeChar
      rw [if_neg h1, if_neg h2, if_neg h3, if_neg h4, if_neg h5, if_neg h6, if_pos h7]
    rw [he]
    show consHead (Char.ofNat 12) (parseStrChars f rest) = consHead c (parseStrChars f rest)
    rw [← h7, Char.ofNat_toNat]
  by_cases h8 : c.toNat < 32
  · have he : escapeChar c =
        ['\\', 'u', '0', '0', hexDigitChar (c.toNat / 16), hexDigitChar (c.toNat % 16)] := by
      unfold escapeChar
      rw [if_neg h1, if_neg h2, if_neg h3, if_neg h4, if_neg h5, if_neg h6, if_neg h7, if_pos h8]
    rw [he]
    have hhi : c.toNat / 16 < 16 := by omega
    have hlo : c.toNat % 16 < 16 := by omega
    show (match hexQuad ('0' :: '0' :: hexDigitChar (c.toNat / 16) ::
          hexDigitChar (c.toNat % 16) :: rest) with
        | some (d, cs3) => consHead d (parseStrChars f cs3)
        | none => none) = consHead c (parseStrChars f rest)
    have hq : hexQuad ('0' :: '0' :: hexDigitChar (c.toNat / 16) ::
        hexDigitChar (c.toNat % 16) :: rest) = some (c, rest) := by
      simp only [hexQuad]
      rw [hexDigitChar_isHex hhi, hexDigitChar_isHex hlo]
      rw [show isHexDigitChar ('0') = true from rfl]
      simp only [Bool.and_true, Bool.and_self, if_true]
      rw [hexVal_hexDigitChar hhi, hexVal_hexDigitChar hlo]
      rw [show hexVal ('0') = 0 from rfl]
      rw [show (0 * 4096 + 0 * 256 + c.toNat / 16 * 16 + c.toNat % 16) = c.toNat by omega]
      rw [Char.ofNat_toNat]
    rw [hq]
  · have he : escapeChar c = [c] := by
      unfold escapeChar
      rw [if_neg h1, if_neg h2, if_neg h3, if_neg h4, if_neg h5, if_neg h6, if_neg h7, if_neg h8]
    rw [he]
    show parseStrChars (f + 1) (c :: rest) = consHead c (parseStrChars f rest)
    simp only [parseStrChars]
    rw [if_neg h1, if_neg h2, if_neg h8]

theorem parseStrChars_escapeChars (l rest : List Char) :
    ∀ f, l.length + 1 ≤ f →
      parseStrChars f (escapeChars l ++ ('"' :: rest)) = some (l, rest) := by
  induction l with
  | nil =>
    intro f hf
    cases f with
    | zero => omega
    | succ f0 => rfl
  | cons c l2 ih =>
    intro f hf
    cases f with
    | zero => omega
    | succ f0 =>
      rw [show escapeChars (c :: l2) = escapeChar c ++ escapeChars l2 from rfl,
        List.append_assoc, parseStrChars_escapeChar,
        ih f0 (by simp only [List.length_cons] at hf; omega)]
      rfl

theorem dumpsL_shape (v : Json) : ∃ c cs', dumpsL v = c :: cs' ∧
    isJsonWs c = false ∧ c ≠ ']' := by
  cases v with
  | null => exact ⟨'n', _, rfl, by decide, by decide⟩
  | bool b => cases b
              · exact ⟨'f', _, rfl, by decide, by decide⟩
              · exact ⟨'t', _, rfl, by decide, by decide⟩
  | num n =>
    show ∃ c cs', intToChars n = c :: cs' ∧ isJsonWs c = false ∧ c ≠ ']'
    unfold intToChars
    split
    · exact ⟨'-', _, rfl, by decide, by decide⟩
    · cases hh : natToChars n.natAbs with
      | nil => exact absurd hh (natToChars_ne_nil _)
      | cons a t =>
        have ha : a.isDigit = true := natToChars_all_digits _ a (by rw [hh]; exact List.mem_cons_self _ _)
        obtain ⟨hw, hne⟩ := digit_head_facts a ha
        exact ⟨a, t, rfl, hw, hne⟩
  | str s => exact ⟨'"', _, rfl, by decide, by decide⟩
  | arr xs => exact ⟨'[', _, rfl, by decide, by decide⟩
  | obj kvs => exact ⟨'{', _, rfl, by decide, by decide⟩

theorem skipWs_of_head {cs : List Char} (h : ∀ c, cs.head? = some c → isJsonWs c = false) :
    skipWs cs = cs :=
  dropWhile_eq_self_of_head? isJsonWs cs h

theorem skipWs_dumps_append (v : Json) (r : List Char) :
    skipWs (dumpsL v ++ r) = dumpsL v ++ r := by
  obtain ⟨c, cs', heq, hw, -⟩ := dumpsL_shape v
  apply skipWs_of_head
  intro d hd
  rw [heq, List.cons_append] at hd
  simp at hd
  subst hd
  exact hw

theorem parseValue_quote (f : Nat) (cs : List Char) :
    parseValue (f + 1) ('"' :: cs) =
      (match parseStrChars f cs with
        | some (content, rest) => some (Json.str (String.mk content), rest)
        | none => none) := rfl

theorem parseValue_minus (f : Nat) (cs : List Char) :
    parseValue (f + 1) ('-' :: cs) =
      (match parseNumChars cs with
        | some (n, rest) => some (Json.num (-(n : Int)), rest)
        | none => none) := rfl

theorem parseValue_lbrack (f : Nat) (cs : List Char) :
    parseValue (f + 1) ('[' :: cs) =
      (match skipWs cs with
        | [] => none
        | d :: cs1 =>
          if d = ']' then some (Json.arr [], cs1)
          else
            match parseItems f (d :: cs1) with
            | some (xs, rest) => some (Json.arr xs, rest)
            | none => none) := rfl

theorem parseValue_lbrace (f : Nat) (cs : List Char) :
    parseValue (f + 1) ('{' :: cs) =
      (match skipWs cs with
        | [] => none
        | d :: cs1 =>
          if d = '}' then some (Json.obj [], cs1)
          else
            match parseFields f (d :: cs1) with
            | some (kvs, rest) => some (Json.obj kvs, rest)
            | none => none) := rfl

theorem parseValue_digit (f : Nat) (a : Char) (cs : List Char) (ha : a.isDigit = true) :
    parseValue (f + 1) (a :: cs) =
      (match parseNumChars (a :: cs) with
        | some (n, rest) => some (Json.num (n : Int), rest)
        | none => none) := by
  have h1 : ¬ a = 'n' := fun h => by rw [h] at ha; exact absurd ha (by decide)
  have h2 : ¬ a = 't' := fun h => by rw [h] at ha; exact absurd ha (by decide)
  have h3 : ¬ a = 'f' := fun h => by rw [h] at ha; exact absurd ha (by decide)
  have h4 : ¬ a = '"' := fun h => by rw [h] at ha; exact absurd ha (by decide)
  have h5 : ¬ a = '-' := fun h => by rw [h] at ha; exact absurd ha (by decide)
  simp only [parseValue]
  rw [if_neg h1, if_neg h2, if_neg h3, if_neg h4, if_neg h5, if_pos ha]

theorem jsize_pos (v : Json) : 1 ≤ jsize v := by
  cases v <;> simp [jsize] <;> omega

theorem jsizeList_pos (xs : List Json) : 1 ≤ jsizeList xs := by
  cases xs <;> simp [jsizeList] <;> omega

theorem jsizeFields_pos (kvs : List (String × Json)) : 1 ≤ jsizeFields kvs := by
  cases kvs <;> simp [jsizeFields] <;> omega

theorem items_decomp (x : Json) (xs : List Json) :
    ∃ T, dumpsItems (x :: xs) = dumpsL x ++ T := by
  cases xs with
  | nil => exact ⟨[], by simp [dumpsItems]⟩
  | cons y ys => exact ⟨',' :: ' ' :: dumpsItems (y :: ys), by simp [dumpsItems]⟩

theorem skipWs_items_append (x : Json) (xs : List Json) (r : List Char) :
    skipWs (dumpsItems (x :: xs) ++ r) = dumpsItems (x :: xs) ++ r := by
  obtain ⟨T, hT⟩ := items_decomp x xs
  rw [hT, List.append_assoc, skipWs_dumps_append, ← List.append_assoc]

theorem fields_decomp (kv : String × Json) (kvs : List (String × Json)) :
    ∃ T, dumpsFields (kv :: kvs) =
      '"' :: (escapeChars kv.1.data ++ ('"' :: (':' :: ' ' :: (dumpsL kv.2 ++ T)))) := by
  cases kvs with
  | nil =>
    refine ⟨[], ?_⟩
    show quoteChars kv.1 ++ (':' :: ' ' :: dumpsL kv.2) = _
    simp [quoteChars, List.append_assoc]
  | cons kv2 kvs2 =>
    refine ⟨',' :: ' ' :: dumpsFields (kv2 :: kvs2), ?_⟩
    show quoteChars kv.1 ++ (':' :: ' ' :: dumpsL kv.2) ++
        (',' :: ' ' :: dumpsFields (kv2 :: kvs2)) = _
    simp [quoteChars, List.append_assoc]

theorem skipWs_cons_nonws {c : Char} (h : isJsonWs c = false) (t : List Char) :
    skipWs (c :: t) = c :: t := by
  simp [skipWs, List.dropWhile_cons, h]

theorem skipWs_space (t : List Char) : skipWs (' ' :: t) = skipWs t := rfl

theorem skipWs_fields_append (kv : String × Json) (kvs : List (String × Json)) (r : List Char) :
    skipWs (dumpsFields (kv :: kvs) ++ r) = dumpsFields (kv :: kvs) ++ r := by
  obtain ⟨T, hT⟩ := fields_decomp kv kvs
  rw [hT, List.cons_append]
  exact skipWs_cons_nonws (by decide) _

theorem parseItems_succ (f : Nat) (cs : List Char) :
    parseItems (f + 1) cs = (match parseValue f cs with
      | none => none
      | some (v, rest) =>
        match skipWs rest with
        | [] => none
        | d :: r2 =>
          if d = ',' then
            match parseItems f (skipWs r2) with
            | some (vs, rest2) => some (v :: vs, rest2)
            | none => none
          else if d = ']' then some ([v], r2)
          else none) := rfl

theorem parseFields_quote (f : Nat) (cs1 : List Char) :
    parseFields (f + 1) ('"' :: cs1) = (match parseStrChars f cs1 with
      | none => none
      | some (key, r1) =>
        match skipWs r1 with
        | [] => none
        | d2 :: r2 =>
          if d2 = ':' then
            match parseValue f (skipWs r2) with
            | none => none
            | some (v, r3) =>
              match skipWs r3 with
              | [] => none
              | d4 :: r4 =>
                if d4 = ',' then
                  match parseFields f (skipWs r4) with
                  | some (kvs, rest) => some ((String.mk key, v) :: kvs, rest)
                  | none => none
                else if d4 = '}' then some ([(String.mk key, v)], r4)
                else none
          else none) := rfl

theorem parseValue_lbrack_cons (f : Nat) (cs : List Char) (d : Char) (cs1 : List Char)
    (hsk : skipWs cs = d :: cs1) (hd : d ≠ ']') :
    parseValue (f + 1) ('[' :: cs) =
      (match parseItems f (d :: cs1) with
        | some (xs, rest) => some (Json.arr xs, rest)
        | none => none) := by
  rw [parseValue_lbrack, hsk]
  simp [hd]

theorem parseValue_lbrace_cons (f : Nat) (cs : List Char) (d : Char) (cs1 : List Char)
    (hsk : skipWs cs = d :: cs1) (hd : d ≠ '}') :
    parseValue (f + 1) ('{' :: cs) =
      (match parseFields f (d :: cs1) with
        | some (kvs, rest) => some (Json.obj kvs, rest)
        | none => none) := by
  rw [parseValue_lbrace, hsk]
  simp [hd]

theorem parse_dumps_rt : ∀ fuel : Nat,
    (∀ (v : Json) (rest : List Char), jsize v ≤ fuel →
      (∀ c, rest.head? = some c → c.isDigit = false) →
      parseValue fuel (dumpsL v ++ rest) = some (v, rest)) ∧
    (∀ (xs : List Json) (rest : List Char), xs ≠ [] → jsizeList xs ≤ fuel →
      parseItems fuel (dumpsItems xs ++ (']' :: rest)) = some (xs, rest)) ∧
    (∀ (kvs : List (String × Json)) (rest : List Char), kvs ≠ [] → jsizeFields kvs ≤ fuel →
      parseFields fuel (dumpsFields kvs ++ ('}' :: rest)) = some (kvs, rest)) := by
  intro fuel
  induction fuel with
  | zero =>
    refine ⟨?_, ?_, ?_⟩
    · intro v rest hs _
      exact absurd hs (by have := jsize_pos v; omega)
    · intro xs rest _ hs
      exact absurd hs (by have := jsizeList_pos xs; omega)
    · intro kvs rest _ hs
      exact absurd hs (by have := jsizeFields_pos kvs; omega)
  | succ fuel ih =>
    obtain ⟨ihV, ihI, ihF⟩ := ih
    refine ⟨?_, ?_, ?_⟩
    · intro v rest hs hr
      cases v with
      | null => rfl
      | bool b => cases b <;> rfl
      | num n =>
        by_cases hn : n < 0
        · have hd : dumpsL (Json.num n) = '-' :: natToChars n.natAbs := by
            show intToChars n = _
            unfold intToChars
            rw [if_pos hn]
          rw [hd, List.cons_append, parseValue_minus, parseNumChars_natToChars _ _ hr]
          have hval : -((n.natAbs : Int)) = n := by omega
          show some (Json.num (-((n.natAbs : Int))), rest) = some (Json.num n, rest)
          rw [hval]
        · have hd : dumpsL (Json.num n) = natToChars n.natAbs := by
            show intToChars n = _
            unfold intToChars
            rw [if_neg hn]
          rw [hd]
          cases hh : natToChars n.natAbs with
          | nil => exact absurd hh (natToChars_ne_nil _)
          | cons a t =>
            have ha : a.isDigit = true :=
              natToChars_all_digits _ a (by rw [hh]; exact List.mem_cons_self _ _)
            rw [List.cons_append, parseValue_digit fuel a (t ++ rest) ha,
              ← List.cons_append, ← hh, parseNumChars_natToChars _ _ hr]
            have hval : ((n.natAbs : Int)) = n := by omega
            show some (Json.num ((n.natAbs : Int)), rest) = some (Json.num n, rest)
            rw [hval]
      | str s =>
        have hd : dumpsL (Json.str s) ++ rest =
            '"' :: (escapeChars s.data ++ ('"' :: rest)) := by
          show quoteChars s ++ rest = _
          simp [quoteChars, List.append_assoc]
        have hf : s.data.length + 1 ≤ fuel := by
          have e1 : jsize (Json.str s) = 2 + s.data.length := rfl
          omega
        rw [hd, parseValue_quote, parseStrChars_escapeChars s.data rest fuel hf]
      | arr xs =>
        cases xs with
        | nil => rfl
        | cons x xs2 =>
          have hd1 : dumpsL (Json.arr (x :: xs2)) ++ rest =
              '[' :: (dumpsItems (x :: xs2) ++ (']' :: rest)) := by
            show ('[' :: (dumpsItems (x :: xs2) ++ [']'])) ++ rest = _
            simp [List.append_assoc]
          obtain ⟨T, hT⟩ := items_decomp x xs2
          obtain ⟨c, cs', hc, hw, hne⟩ := dumpsL_shape x
          have hE : dumpsItems (x :: xs2) ++ (']' :: rest) =
              c :: (cs' ++ (T ++ (']' :: rest))) := by
            rw [hT, hc]
            simp [List.append_assoc]
          have hsk : skipWs (dumpsItems (x :: xs2) ++ (']' :: rest)) =
              c :: (cs' ++ (T ++ (']' :: rest))) := by
            rw [skipWs_items_append, hE]
          rw [hd1, parseValue_lbrack_cons fuel _ c _ hsk hne, ← hE,
            ihI (x :: xs2) rest (by simp) (by
              have e1 : jsize (Json.arr (x :: xs2)) = 1 + jsizeList (x :: xs2) := rfl
              omega)]
      | obj kvs =>
        cases kvs with
        | nil => rfl
        | cons kv kvs2 =>
          have hd1 : dumpsL (Json.obj (kv :: kvs2)) ++ rest =
              '{' :: (dumpsFields (kv :: kvs2) ++ ('}' :: rest)) := by
            show ('{' :: (dumpsFields (kv :: kvs2) ++ ['}'])) ++ rest = _
            simp [List.append_assoc]
          obtain ⟨T, hT⟩ := fields_decomp kv kvs2
          have hE : dumpsFields (kv :: kvs2) ++ ('}' :: rest) =
              '"' :: ((escapeChars kv.1.data ++
                ('"' :: (':' :: ' ' :: (dumpsL kv.2 ++ T)))) ++ ('}' :: rest)) := by
            rw [hT]
            rfl
          have hsk : skipWs (dumpsFields (kv :: kvs2) ++ ('}' :: rest)) =
              '"' :: ((escapeChars kv.1.data ++
                ('"' :: (':' :: ' ' :: (dumpsL kv.2 ++ T)))) ++ ('}' :: rest)) := by
            rw [skipWs_fields_append, hE]
          rw [hd1, parseValue_lbrace_cons fuel _ '"' _ hsk (by decide), ← hE,
            ihF (kv :: kvs2) rest (by simp) (by
              have e1 : jsize (Json.obj (kv :: kvs2)) = 1 + jsizeFields (kv :: kvs2) := rfl
              omega)]
    · intro xs rest hne hs
      cases xs with
      | nil => exact absurd rfl hne
      | cons x xs2 =>
        rw [parseItems_succ]
        cases xs2 with
        | nil =>
          have h1 : dumpsItems [x] ++ (']' :: rest) = dumpsL x ++ (']' :: rest) := rfl
          have hszx : jsize x ≤ fuel := by
            have e1 : jsizeList [x] = 1 + jsize x + 1 := rfl
            omega
          rw [h1, ihV x (']' :: rest) hszx (by
            intro c hc
            simp only [List.head?_cons, Option.some.injEq] at hc
            subst hc
            decide)]
          rfl
        | cons y ys =>
          have h1 : dumpsItems (x :: y :: ys) ++ (']' :: rest) =
              dumpsL x ++ (',' :: ' ' :: (dumpsItems (y :: ys) ++ (']' :: rest))) := by
            show (dumpsL x ++ (',' :: ' ' :: dumpsItems (y :: ys))) ++ (']' :: rest) = _
            simp [List.append_assoc]
          have hszx : jsize x ≤ fuel := by
            have e1 : jsizeList (x :: y :: ys) = 1 + jsize x + jsizeList (y :: ys) := rfl
            have := jsizeList_pos (y :: ys)
            omega
          rw [h1, ihV x (',' :: ' ' :: (dumpsItems (y :: ys) ++ (']' :: rest))) hszx (by
            intro c hc
            simp only [List.head?_cons, Option.some.injEq] at hc
            subst hc
            decide)]
          show (match parseItems fuel (skipWs (dumpsItems (y :: ys) ++ (']' :: rest))) with
                | some (vs, rest2) => some (x :: vs, rest2)
                | none => none) = some (x :: y :: ys, rest)
          rw [skipWs_items_append, ihI (y :: ys) rest (by simp) (by
            have e1 : jsizeList (x :: y :: ys) = 1 + jsize x + jsizeList (y :: ys) := rfl
            have := jsize_pos x
            omega)]
    · intro kvs rest hne hs
      cases kvs with
      | nil => exact absurd rfl hne
      | cons kv kvs2 =>
        have e1 : jsizeFields (kv :: kvs2) =
            2 + kv.1.data.length + jsize kv.2 + jsizeFields kvs2 := rfl
        have hkf : kv.1.data.length + 1 ≤ fuel := by
          have := jsize_pos kv.2
          have := jsizeFields_pos kvs2
          omega
        have hszv : jsize kv.2 ≤ fuel := by
          have := jsizeFields_pos kvs2
          omega
        cases kvs2 with
        | nil =>
          have hE : dumpsFields [kv] ++ ('}' :: rest) =
              '"' :: (escapeChars kv.1.data ++
                ('"' :: (':' :: ' ' :: (dumpsL kv.2 ++ ('}' :: rest))))) := by
            show (quoteChars kv.1 ++ (':' :: ' ' :: dumpsL kv.2)) ++ ('}' :: rest) = _
            simp [quoteChars, List.append_assoc]
          rw [hE, parseFields_quote, parseStrChars_escapeChars kv.1.data _ fuel hkf]
          show (match parseValue fuel (skipWs (dumpsL kv.2 ++ ('}' :: rest))) with
                | none => none
                | some (v, r3) =>
                  match skipWs r3 with
                  | [] => none
                  | d4 :: r4 =>
                    if d4 = ',' then
                      match parseFields fuel (skipWs r4) with
                      | some (kvs4, rest2) => some ((String.mk kv.1.data, v) :: kvs4, rest2)
                      | none => none
                    else if d4 = '}' then some ([(String.mk kv.1.data, v)], r4)
                    else none) = some ([kv], rest)
          rw [skipWs_dumps_append, ihV kv.2 ('}' :: rest) hszv (by
            intro c hc
            simp only [List.head?_cons, Option.some.injEq] at hc
            subst hc
            decide)]
          rfl
        | cons kv2 kvs3 =>
          have hE : dumpsFields (kv :: kv2 :: kvs3) ++ ('}' :: rest) =
              '"' :: (escapeChars kv.1.data ++
                ('"' :: (':' :: ' ' :: (dumpsL kv.2 ++
                  (',' :: ' ' :: (dumpsFields (kv2 :: kvs3) ++ ('}' :: rest))))))) := by
            show (quoteChars kv.1 ++ (':' :: ' ' :: dumpsL kv.2) ++
              (',' :: ' ' :: dumpsFields (kv2 :: kvs3))) ++ ('}' :: rest) = _
            simp [quoteChars, List.append_assoc]
          rw [hE, parseFields_quote, parseStrChars_escapeChars kv.1.data _ fuel hkf]
          show (match parseValue fuel (skipWs (dumpsL kv.2 ++
                  (',' :: ' ' :: (dumpsFields (kv2 :: kvs3) ++ ('}' :: rest))))) with
                | none => none
                | some (v, r3) =>
                  match skipWs r3 with
                  | [] => none
                  | d4 :: r4 =>
                    if d4 = ',' then
                      match parseFields fuel (skipWs r4) with
                      | some (kvs4, rest2) => some ((String.mk kv.1.data, v) :: kvs4, rest2)
                      | none => none
                    else if d4 = '}' then some ([(String.mk kv.1.data, v)], r4)
                    else none) = some (kv :: kv2 :: kvs3, rest)
          rw [skipWs_dumps_append, ihV kv.2
            (',' :: ' ' :: (dumpsFields (kv2 :: kvs3) ++ ('}' :: rest))) hszv (by
            intro c hc
            simp only [List.head?_cons, Option.some.injEq] at hc
            subst hc
            decide)]
          show (match parseFields fuel (skipWs (dumpsFields (kv2 :: kvs3) ++ ('}' :: rest))) with
                | some (kvs4, rest2) => some ((String.mk kv.1.data, kv.2) :: kvs4, rest2)
                | none => none) = some (kv :: kv2 :: kvs3, rest)
          rw [skipWs_fields_append, ihF (kv2 :: kvs3) rest (by simp) (by
            have := jsize_pos kv.2
            omega)]

theorem escapeChar_length (c : Char) : 1 ≤ (escapeChar c).length := by
  unfold escapeChar
  split_ifs <;> simp

theorem escapeChars_length (l : List Char) : l.length ≤ (escapeChars l).length := by
  induction l with
  | nil => simp [escapeChars]
  | cons c t ih =>
    have h1 := escapeChar_length c
    simp only [escapeChars, List.length_append, List.length_cons]
    omega

theorem intToChars_length (n : Int) : 1 ≤ (intToChars n).length := by
  unfold intToChars
  split
  · simp
  · cases hh : natToChars n.natAbs with
    | nil => exact absurd hh (natToChars_ne_nil _)
    | cons a t => simp

theorem jsize_le_aux : ∀ n : Nat,
    (∀ v : Json, jsize v ≤ n → jsize v + 1 ≤ 2 * (dumpsL v).length) ∧
    (∀ xs : List Json, jsizeList xs ≤ n → jsizeList xs ≤ 2 * (dumpsItems xs).length + 2) ∧
    (∀ kvs : List (String × Json), jsizeFields kvs ≤ n →
      jsizeFields kvs ≤ 2 * (dumpsFields kvs).length + 2) := by
  intro n
  induction n with
  | zero =>
    refine ⟨?_, ?_, ?_⟩
    · intro v hs
      exact absurd hs (by have := jsize_pos v; omega)
    · intro xs hs
      exact absurd hs (by have := jsizeList_pos xs; omega)
    · intro kvs hs
      exact absurd hs (by have := jsizeFields_pos kvs; omega)
  | succ n ih =>
    obtain ⟨ihV, ihI, ihF⟩ := ih
    refine ⟨?_, ?_, ?_⟩
    · intro v hs
      cases v with
      | null => simp [jsize, dumpsL]
      | bool b => cases b <;> simp [jsize, dumpsL]
      | num m =>
        have h1 := intToChars_length m
        have e1 : jsize (Json.num m) = 1 := rfl
        have e2 : (dumpsL (Json.num m)).length = (intToChars m).length := rfl
        omega
      | str s =>
        have h1 := escapeChars_length s.data
        have e1 : jsize (Json.str s) = 2 + s.data.length := rfl
        have e2 : (dumpsL (Json.str s)).length = 2 + (escapeChars s.data).length := by
          show (quoteChars s).length = _
          simp [quoteChars]
          omega
        omega
      | arr xs =>
        have e1 : jsize (Json.arr xs) = 1 + jsizeList xs := rfl
        have e2 : (dumpsL (Json.arr xs)).length = 2 + (dumpsItems xs).length := by
          show ('[' :: (dumpsItems xs ++ [']'])).length = _
          simp
          omega
        have h1 := ihI xs (by omega)
        omega
      | obj kvs =>
        have e1 : jsize (Json.obj kvs) = 1 + jsizeFields kvs := rfl
        have e2 : (dumpsL (Json.obj kvs)).length = 2 + (dumpsFields kvs).length := by
          show ('{' :: (dumpsFields kvs ++ ['}'])).length = _
          simp
          omega
        have h1 := ihF kvs (by omega)
        omega
    · intro xs hs
      cases xs with
      | nil => simp [jsizeList, dumpsItems]
      | cons x xs2 =>
        cases xs2 with
        | nil =>
          have e1 : jsizeList [x] = 1 + jsize x + 1 := rfl
          have e2 : dumpsItems [x] = dumpsL x := rfl
          have h1 := ihV x (by have := jsize_pos x; omega)
          rw [e1, e2]
          omega
        | cons y ys =>
          have e1 : jsizeList (x :: y :: ys) = 1 + jsize x + jsizeList (y :: ys) := rfl
          have e2 : (dumpsItems (x :: y :: ys)).length =
              (dumpsL x).length + 2 + (dumpsItems (y :: ys)).length := by
            show (dumpsL x ++ (',' :: ' ' :: dumpsItems (y :: ys))).length = _
            simp
            omega
          have h1 := ihV x (by have := jsizeList_pos (y :: ys); omega)
          have h2 := ihI (y :: ys) (by have := jsize_pos x; omega)
          omega
    · intro kvs hs
      cases kvs with
      | nil => simp [jsizeFields, dumpsFields]
      | cons kv kvs2 =>
        have hq : (quoteChars kv.1).length = 2 + (escapeChars kv.1.data).length := by
          simp [quoteChars]
          omega
        have hesc := escapeChars_length kv.1.data
        cases kvs2 with
        | nil =>
          have e1 : jsizeFields [kv] = 2 + kv.1.data.length + jsize kv.2 + 1 := rfl
          have e2 : (dumpsFields [kv]).length =
              (quoteChars kv.1).length + 2 + (dumpsL kv.2).length := by
            show (quoteChars kv.1 ++ (':' :: ' ' :: dumpsL kv.2)).length = _
            simp
            omega
          have h1 := ihV kv.2 (by have := jsize_pos kv.2; omega)
          omega
        | cons kv2 kvs3 =>
          have e1 : jsizeFields (kv :: kv2 :: kvs3) =
              2 + kv.1.data.length + jsize kv.2 + jsizeFields (kv2 :: kvs3) := rfl
          have e2 : (dumpsFields (kv :: kv2 :: kvs3)).length =
              (quoteChars kv.1).length + 2 + (dumpsL kv.2).length + 2 +
                (dumpsFields (kv2 :: kvs3)).length := by
            show (quoteChars kv.1 ++ (':' :: ' ' :: dumpsL kv.2) ++
              (',' :: ' ' :: dumpsFields (kv2 :: kvs3))).length = _
            simp
            omega
          have h1 := ihV kv.2 (by
            have := jsizeFields_pos (kv2 :: kvs3)
            omega)
          have h2 := ihF (kv2 :: kvs3) (by have := jsize_pos kv.2; omega)
          omega

theorem loads_dumps (v : Json) : loads (dumps v) = some v := by
  have hb := (jsize_le_aux (jsize v)).1 v le_rfl
  have hsw : skipWs (dumpsL v) = dumpsL v := by
    have h := skipWs_dumps_append v []
    simpa using h
  have hP := (parse_dumps_rt (2 * (dumpsL v).length + 2)).1 v []
    (by omega) (by intro c hc; simp at hc)
  rw [List.append_nil] at hP
  show (match parseValue (2 * (skipWs (dumpsL v)).length + 2) (skipWs (dumpsL v)) with
    | some (v2, rest) => if (skipWs rest).isEmpty then some v2 else none
    | none => none) = some v
  rw [hsw, hP]
  rfl

theorem findSpan_skip (pre cs : List Char) (hp : ∀ c ∈ pre, c ≠ '{' ∧ c ≠ '[') :
    findSpan (pre ++ cs) = findSpan cs := by
  induction pre with
  | nil => rfl
  | cons c t ih =>
    obtain ⟨h1, h2⟩ := hp c (List.mem_cons_self _ _)
    rw [List.cons_append]
    show (if (c = '{' && (t ++ cs).contains '}') = true then some (c :: takeToLast '}' (t ++ cs))
      else if (c = '[' && (t ++ cs).contains ']') = true then some (c :: takeToLast ']' (t ++ cs))
      else findSpan (t ++ cs)) = findSpan cs
    rw [if_neg (by simp [h1]), if_neg (by simp [h2])]
    exact ih (fun d hd => hp d (List.mem_cons_of_mem _ hd))

theorem takeToLast_last (A post : List Char) (hpost : ∀ c ∈ post, c ≠ '}') :
    takeToLast '}' (A ++ ('}' :: post)) = A ++ ['}'] := by
  unfold takeToLast
  rw [List.reverse_append]
  have h1 : ('}' :: post).reverse = post.reverse ++ ['}'] := by simp
  rw [h1, List.append_assoc]
  rw [List.dropWhile_append]
  have hall : List.dropWhile (fun c => decide (c ≠ '}')) post.reverse = [] := by
    rw [List.dropWhile_eq_nil_iff]
    intro c hc
    simp only [ne_eq, decide_eq_true_eq]
    exact hpost c (by simpa using hc)
  rw [if_pos (by rw [hall]; rfl)]
  show (List.dropWhile (fun c => decide (c ≠ '}')) ('}' :: A.reverse)).reverse = A ++ ['}']
  rw [List.dropWhile_cons]
  simp

theorem findSpan_obj (kvs : List (String × Json)) (post : List Char)
    (hpost : ∀ c ∈ post, c ≠ '}') :
    findSpan (dumpsL (Json.obj kvs) ++ post) = some (dumpsL (Json.obj kvs)) := by
  have hd : dumpsL (Json.obj kvs) ++ post =
      '{' :: (dumpsFields kvs ++ ('}' :: post)) := by
    show ('{' :: (dumpsFields kvs ++ ['}'])) ++ post = _
    simp [List.append_assoc]
  rw [hd]
  show (if (('{' : Char) = '{' && (dumpsFields kvs ++ ('}' :: post)).contains '}') = true
    then some ('{' :: takeToLast '}' (dumpsFields kvs ++ ('}' :: post)))
    else if (('{' : Char) = '[' && (dumpsFields kvs ++ ('}' :: post)).contains ']') = true
    then some ('{' :: takeToLast ']' (dumpsFields kvs ++ ('}' :: post)))
    else findSpan (dumpsFields kvs ++ ('}' :: post))) = some (dumpsL (Json.obj kvs))
  rw [if_pos (by simp), takeToLast_last _ _ hpost]
  rfl

/-- C6 counterexample: the text `42` contains no brace- or
bracket-delimited span (`findSpan` is `none`), yet `_extract_json_payload`
returns `some 42` through the full-text parse, so the claim's conjunct
"for text containing no span, extraction returns absent" is false. -/
theorem C6_counterexample :
    findSpan (("42").data) = none ∧
    _extract_json_payload ("42") = some (Json.num 42) ∧
    some (Json.num 42) ≠ (none : Option Json) :=
  ⟨rfl, rfl, by simp⟩

/-- C6 (amended): (a) extraction of the exact serialization of any value
returns an equal value; (b) for a serialized object embedded in prose
whose prefix contains no `{` or `[` and whose suffix contains no `}`,
when the full text itself fails to parse, extraction returns exactly the
embedded object; (c) when the full-text parse fails and the text contains
no `{...}`/`[...]` span, extraction returns absent. -/
theorem C6_extract_json_amended :
    (∀ v : Json, _extract_json_payload (dumps v) = some v) ∧
    (∀ (kvs : List (String × Json)) (pre post : String),
      (∀ c ∈ pre.data, c ≠ '{' ∧ c ≠ '[') →
      (∀ c ∈ post.data, c ≠ '}') →
      loads (pre ++ dumps (Json.obj kvs) ++ post) = none →
      _extract_json_payload (pre ++ dumps (Json.obj kvs) ++ post) = some (Json.obj kvs)) ∧
    (∀ text : String, loads text = none → findSpan text.data = none →
      _extract_json_payload text = none) := by
  refine ⟨?_, ?_, ?_⟩
  · intro v
    show (match loads (dumps v) with
      | some w => some w
      | none =>
        match findSpan (dumps v).data with
        | none => none
        | some span => loads (String.mk span)) = some v
    rw [loads_dumps]
  · intro kvs pre post hpre hpost hl
    have hdata : (pre ++ dumps (Json.obj kvs) ++ post).data =
        pre.data ++ (dumpsL (Json.obj kvs) ++ post.data) := by
      show (pre.data ++ (dumpsL (Json.obj kvs)) ++ post.data) = _
      simp [List.append_assoc]
    show (match loads (pre ++ dumps (Json.obj kvs) ++ post) with
      | some w => some w
      | none =>
        match findSpan (pre ++ dumps (Json.obj kvs) ++ post).data with
        | none => none
        | some span => loads (String.mk span)) = some (Json.obj kvs)
    rw [hl]
    show (match findSpan (pre ++ dumps (Json.obj kvs) ++ post).data with
      | none => none
      | some span => loads (String.mk span)) = some (Json.obj kvs)
    rw [hdata, findSpan_skip _ _ hpre, findSpan_obj _ _ hpost]
    show loads (dumps (Json.obj kvs)) = some (Json.obj kvs)
    exact loads_dumps (Json.obj kvs)
  · intro text hl hf
    show (match loads text with
      | some w => some w
      | none =>
        match findSpan text.data with
        | none => none
        | some span => loads (String.mk span)) = none
    rw [hl]
    show (match findSpan text.data with
      | none => none
      | some span => loads (String.mk span)) = none
    rw [hf]

/-- C6 witness: the amended theorem applied at concrete inputs — the
serialization of `\x7b"a": 1\x7d` embedded after the prose prefix `a `
extracts to the embedded object, and prose with no JSON-like span
extracts to absent. -/
theorem C6_extract_json_amended_witness :
    _extract_json_payload (("a ") ++ dumps (Json.obj [(("a"), Json.num 1)]) ++ ("")) =
      some (Json.obj [(("a"), Json.num 1)]) ∧
    _extract_json_payload ("no json here") = none := by
  constructor
  · exact C6_extract_json_amended.2.1 [(("a"), Json.num 1)] ("a ") ("")
      (by decide) (by decide) (by rfl)
  · exact C6_extract_json_amended.2.2 ("no json here") (by rfl) (by rfl)
